import Mathlib

/-!
Verification of the momento-a2a-agent core against its natural-language
specification.  The TypeScript sources are shallowly embedded as Lean
definitions: pure functions become Lean functions, stateful classes become
explicit state passing, fallible operations return Except/Option, and the
JS platform primitives (JSON stringify/parse, base64 atob/btoa) that are not
part of the repository are modelled as transparent inverse codec pairs.
-/

namespace A2A

/-- Metadata values.  The repository treats metadata as plain JSON objects;
string, integer and boolean values cover every value the claims touch. -/
inductive MVal where
  | str (s : String)
  | num (n : Int)
  | bool (b : Bool)
deriving DecidableEq, Repr

/-- A JSON object, in insertion order, as JS objects are. -/
abbrev Meta : Type := List (String × MVal)

/-- Payload of a data part.  The store treats it as an opaque JSON object. -/
abbrev DataVal : Type := List (String × MVal)

/-- Lookup a key in a JS object or Map (first binding wins). -/
def getKey {V : Type} (m : List (String × V)) (k : String) : Option V :=
  match m.lookup k with
  | some v => some v
  | none => none

/-- JS object key update, obj[k] = v, and Map.set: overwrite in place or
append at the end. -/
def setKey {V : Type} : List (String × V) → String → V → List (String × V)
  | [], k, v => [(k, v)]
  | (k2, v2) :: rest, k, v =>
      if k2 = k then (k, v) :: rest else (k2, v2) :: setKey rest k v

/-- JS delete obj[k] and Map.delete: remove every binding of the key. -/
def delKey {V : Type} (m : List (String × V)) (k : String) : List (String × V) :=
  m.filter (fun p => p.1 ≠ k)

/-- JS object spread \x7b...a, ...b\x7d: keys of a in order with values
overridden by b where present, then keys of b that were not in a. -/
def objMerge (a b : List (String × MVal)) : List (String × MVal) :=
  (a.map (fun p => (p.1, (getKey b p.1).getD p.2))) ++
    b.filter (fun p => (getKey a p.1).isNone)

/-- JS string truthiness for an optional string field. -/
def strTruthy : Option String → Bool
  | some s => s ≠ ""
  | none => false

/-- File payload of a file part.  The repository's types.ts is not in the
snapshot; modelled from the spec, which only describes the base64 bytes
payload that the Task Store externalizes. -/
structure FileVal where
  bytes : Option String
deriving DecidableEq, Repr

/-- Message/artifact parts: the discriminated union text | file | data, each
with optional per-part metadata (spec section 3). -/
inductive Part where
  | text (text : String) (metadata : Option Meta)
  | file (file : Option FileVal) (metadata : Option Meta)
  | data (data : Option DataVal) (metadata : Option Meta)
deriving DecidableEq

/-- Message record (spec section 3). -/
structure Message where
  messageId : String
  role : String
  parts : List Part
  contextId : Option String := none
  taskId : Option String := none
  metadata : Option Meta := none
deriving DecidableEq

/-- Task status: state is the literal string union used by the code. -/
structure TaskStatus where
  state : String
  message : Option Message := none
  timestamp : Option String := none
deriving DecidableEq

/-- Artifact record (spec section 3). -/
structure Artifact where
  artifactId : String
  parts : List Part
  name : Option String := none
  description : Option String := none
  metadata : Option Meta := none
deriving DecidableEq

/-- Task record.  history and artifacts are optional because the code guards
them with Array.isArray checks. -/
structure Task where
  id : String
  contextId : String
  status : TaskStatus
  history : Option (List Message) := none
  artifacts : Option (List Artifact) := none
  metadata : Option Meta := none
deriving DecidableEq

/-- StatusUpdate event payload (spec section 3). -/
structure TaskStatusUpdateEvent where
  taskId : String
  contextId : String
  status : TaskStatus
  final : Bool
  metadata : Option Meta := none
deriving DecidableEq

/-- ArtifactUpdate event payload (spec section 3). -/
structure TaskArtifactUpdateEvent where
  taskId : String
  contextId : String
  artifact : Artifact
  append : Bool
deriving DecidableEq

/-- The event union published on the bus (event_bus.ts AgentExecutionEvent). -/
inductive AgentExecutionEvent where
  | message (m : Message)
  | task (t : Task)
  | statusUpdate (e : TaskStatusUpdateEvent)
  | artifactUpdate (e : TaskArtifactUpdateEvent)
deriving DecidableEq

/-- The contextId carried by an event, when the property is present
(a Message may omit it; the other events always carry one). -/
def AgentExecutionEvent.contextIdOf : AgentExecutionEvent → Option String
  | .message m => m.contextId
  | .task t => some t.contextId
  | .statusUpdate e => some e.contextId
  | .artifactUpdate e => some e.contextId

/-- Event kind is message, or a status-update with final set: the conditions
under which ExecutionEventQueue.events stops (queue.ts lines 42-49). -/
def AgentExecutionEvent.isTerminalForQueue : AgentExecutionEvent → Bool
  | .message _ => true
  | .statusUpdate e => e.final
  | _ => false

/-- Terminal task states (request_handler.ts isFinal). -/
def isFinalState (state : String) : Bool :=
  ["completed", "failed", "canceled", "rejected"].contains state

/-! Event Bus poll loop (event_bus.ts MomentoEventBus.registerContext).
The body of one poll response is embedded: the items of a
TopicSubscriptionResponse are folded over the poller state, emitting bus
notifications. -/

/-- Item of a topic subscription response: a message with its topic sequence
number and raw JSON text, or a discontinuity marker. -/
inductive TopicItem where
  | item (topicSequenceNumber : Nat) (text : String)
  | discontinuity (newTopicSequence : Nat) (newSequencePage : Nat)
deriving DecidableEq

/-- Notification emitted by the bus while processing poll items: a parsed
event (carried here as its raw JSON text) or a synthetic discontinuity
record as built at event_bus.ts lines 74-78. -/
inductive BusNotification where
  | event (text : String)
  | disco (contextId : String) (fromSequence : Nat) (toSequence : Nat)
deriving DecidableEq

/-- Poller state per context: seqNum and seqPage (event_bus.ts PollState). -/
structure PollState where
  seqNum : Nat
  seqPage : Nat
deriving DecidableEq

namespace MomentoEventBus

/-- Processing of the items of one poll response (event_bus.ts lines 62-80).
For a message item, the parsed event is emitted and seqNum advances past the
item.  For a discontinuity, seqNum and seqPage are advanced first (lines
70-71) and only then is the discontinuity notification emitted with
fromSequence taken from the already-advanced seqNum (lines 74-78). -/
def processItems (contextId : String) (st : PollState) :
    List TopicItem → PollState × List BusNotification
  | [] => (st, [])
  | .item seq text :: rest =>
      let st2 : PollState := { st with seqNum := seq + 1 }
      let r := processItems contextId st2 rest
      (r.1, .event text :: r.2)
  | .discontinuity nts nsp :: rest =>
      let st2 : PollState := { seqNum := nts + 1, seqPage := nsp }
      let note := BusNotification.disco contextId st2.seqNum nts
      let r := processItems contextId st2 rest
      (r.1, note :: r.2)

end MomentoEventBus

/-! Execution Event Queue (queue.ts ExecutionEventQueue). -/

namespace ExecutionEventQueue

/-- Result of a full run of the events generator: the yielded events and the
bus listener registrations left afterwards. -/
structure QueueRun where
  yielded : List AgentExecutionEvent
  busAfter : List String
deriving DecidableEq

/-- Bus listener removal (the queue's unregisterContext call). -/
def unregisterContext (bus : List String) (contextId : String) : List String :=
  bus.filter (fun c => c ≠ contextId)

/-- The events loop over the buffered events, in arrival order (queue.ts
lines 36-60).  stopBudget models an external stop() call after that many
yields: handleEvent buffers nothing once stopped and the while condition
exits, so the generator yields no further events; the finally block (and
stop itself) unregister the context listener.  Exhausting the input models
the generator being closed while awaiting the next event. -/
def eventsLoop (contextId : String) (bus : List String) :
    List AgentExecutionEvent → Option Nat → QueueRun
  | [], _ => { yielded := [], busAfter := unregisterContext bus contextId }
  | _ :: _, some 0 => { yielded := [], busAfter := unregisterContext bus contextId }
  | e :: rest, stopBudget =>
      if e.isTerminalForQueue then
        { yielded := [e], busAfter := unregisterContext bus contextId }
      else
        let r := eventsLoop contextId bus rest (stopBudget.map (· - 1))
        { yielded := e :: r.yielded, busAfter := r.busAfter }

/-- A full queue run: handleEvent (queue.ts lines 21-30) buffers exactly the
incoming events whose contextId matches, in order; the events generator then
drains them. -/
def run (contextId : String) (incoming : List AgentExecutionEvent)
    (stopAfter : Option Nat) (bus : List String) : QueueRun :=
  eventsLoop contextId bus
    (incoming.filter (fun e => e.contextIdOf = some contextId)) stopAfter

end ExecutionEventQueue

/-! Cache/Topic Adapter retry (MomentoClient.makeRequest and retry, lines
383-425).  Every request goes through makeRequest, which wraps only the
fetch call in retry.  fetch is a platform primitive that rejects only on
network failure (a TypeError) or some other thrown error; an HTTP response
of any status, 5xx included, resolves and is therefore a successful return
of the wrapped function. -/

/-- Errors retry's catch can classify: a network failure (a TypeError from
fetch), an error object carrying an HTTP status, or anything else.  The
http constructor renders the status check in the source's classification;
no fetch rejection actually carries a status (see fetchSettled). -/
inductive ReqError where
  | network
  | http (status : Nat)
  | other
deriving DecidableEq

/-- The transient classification of MomentoClient.retry lines 417-419. -/
def ReqError.isTransient : ReqError → Bool
  | .network => true
  | .http status => 500 ≤ status ∧ status < 600
  | .other => false

/-- Outcome of one fetch invocation: a resolved HTTP response carrying its
status (fetch resolves every HTTP response, 4xx and 5xx alike), a network
failure rejection (TypeError), or some other rejection. -/
inductive FetchOutcome where
  | ok (status : Nat)
  | networkError
  | otherError
deriving DecidableEq

namespace MomentoClient

/-- MomentoClient.retry (lines 411-425).  attempts gives the outcome of each
successive invocation of the wrapped fn; the call in the source is
retry fn 3 100 with fn the fetch closure of makeRequest.  Returns the
surfaced outcome together with the backoff delays slept. -/
def retry (attempts : Nat → Except ReqError Nat) :
    Nat → Nat → Nat → Except ReqError Nat × List Nat
  | attempt, 0, _ =>
      match attempts attempt with
      | .ok v => (.ok v, [])
      | .error err => (.error err, [])
  | attempt, r + 1, delayMs =>
      match attempts attempt with
      | .ok v => (.ok v, [])
      | .error err =>
          if err.isTransient then
            let rec2 := retry attempts (attempt + 1) r (delayMs * 2)
            (rec2.1, delayMs :: rec2.2)
          else (.error err, [])

/-- How one fetch invocation presents to retry's try/catch: a resolved
response is a successful return carrying its status, whatever that status
is; a rejection carries a network or other error, never a value with an
HTTP status — so the 5xx arm of the transient classification never fires
on any real attempt. -/
def fetchSettled : FetchOutcome → Except ReqError Nat
  | .ok status => .ok status
  | .networkError => .error .network
  | .otherError => .error .other

/-- MomentoClient.makeRequest (lines 383-396): every cache/topic request is
retry applied to the fetch closure.  fetchAttempts gives the settlement of
each successive fetch invocation; the result is the surfaced outcome (a
response status or a thrown error) and the backoff delays slept. -/
def makeRequest (fetchAttempts : Nat → FetchOutcome) :
    Except ReqError Nat × List Nat :=
  retry (fun k => fetchSettled (fetchAttempts k)) 0 3 100

end MomentoClient

/-! Event Bus listener registration (event_bus.ts registerContext, onContext,
unregisterContext).  The EventEmitter attaches one entry per on() call; each
onContext creates a fresh filteredListener closure, modelled by a fresh
numeric identity, and records it in the contextListeners map (overwriting any
previous entry for the contextId).  unregisterContext removes the poller and
detaches only the listener currently recorded in the map. -/

/-- Listener bookkeeping of a MomentoEventBus instance. -/
structure BusListenerState where
  pollers : List String
  contextListeners : List (String × Nat)
  attached : List (String × Nat)
  nextId : Nat
deriving DecidableEq

/-- The fresh bus: no pollers, no listeners. -/
def BusListenerState.initial : BusListenerState :=
  { pollers := [], contextListeners := [], attached := [], nextId := 0 }

/-- The registration operations of the bus surface. -/
inductive BusOp where
  | register (contextId : String)
  | onContextOp (contextId : String)
  | unregister (contextId : String)
deriving DecidableEq

namespace MomentoEventBus

/-- registerContext (event_bus.ts lines 45-93): idempotent; starts a poller;
attaches no event listener. -/
def registerContextOp (st : BusListenerState) (contextId : String) :
    BusListenerState :=
  if st.pollers.contains contextId then st
  else { st with pollers := contextId :: st.pollers }

/-- onContext (event_bus.ts lines 106-113): registers the context, creates a
fresh filteredListener, stores it in the contextListeners map (overwriting)
and attaches it to the emitter with on(). -/
def onContextStep (st : BusListenerState) (contextId : String) :
    BusListenerState :=
  let st1 := registerContextOp st contextId
  { st1 with
    contextListeners := setKey st1.contextListeners contextId st1.nextId
    attached := st1.attached ++ [(contextId, st1.nextId)]
    nextId := st1.nextId + 1 }

/-- unregisterContext (event_bus.ts lines 95-104): abort and drop the poller;
detach the listener recorded in the map, if any, and drop the map entry. -/
def unregisterContextOp (st : BusListenerState) (contextId : String) :
    BusListenerState :=
  match getKey st.contextListeners contextId with
  | some id =>
      { st with
        pollers := st.pollers.filter (fun c => c ≠ contextId)
        attached := st.attached.filter (fun p => p.2 ≠ id)
        contextListeners := delKey st.contextListeners contextId }
  | none => { st with pollers := st.pollers.filter (fun c => c ≠ contextId) }

/-- One bus operation. -/
def stepOp (st : BusListenerState) : BusOp → BusListenerState
  | .register contextId => registerContextOp st contextId
  | .onContextOp contextId => onContextStep st contextId
  | .unregister contextId => unregisterContextOp st contextId

/-- A sequence of bus operations from the fresh bus. -/
def runOps (ops : List BusOp) : BusListenerState :=
  ops.foldl stepOp BusListenerState.initial

/-- Number of emitter listeners attached that filter for the contextId. -/
def attachedFor (st : BusListenerState) (contextId : String) : Nat :=
  (st.attached.filter (fun p => p.1 = contextId)).length

/-- Separation discipline on an operation sequence, for one contextId: no
second onContext for it before an unregisterContext.  The flag says whether
an onContext for the contextId is currently outstanding. -/
def sepFor (contextId : String) : List BusOp → Bool → Bool
  | [], _ => true
  | .onContextOp c :: rest, opened =>
      if c = contextId then !opened && sepFor contextId rest true
      else sepFor contextId rest opened
  | .unregister c :: rest, opened =>
      sepFor contextId rest (if c = contextId then false else opened)
  | .register _ :: rest, opened => sepFor contextId rest opened

/-- The at-most-one-listener bound, asserted at every state along a run. -/
def attachedBoundedAll (contextId : String) (st : BusListenerState) :
    List BusOp → Prop
  | [] => attachedFor st contextId ≤ 1
  | op :: rest =>
      attachedFor st contextId ≤ 1 ∧
        attachedBoundedAll contextId (stepOp st op) rest

/-- How one operation updates the outstanding-onContext flag of the
separation discipline. -/
def flagStep (contextId : String) (b : Bool) : BusOp → Bool
  | .onContextOp c => if c = contextId then true else b
  | .unregister c => if c = contextId then false else b
  | .register _ => b

/-- The reachability invariant tying the listener bookkeeping to the
outstanding-onContext flag: listener identities are globally distinct and
below nextId, the contextListeners map is injective on identities, and the
listeners attached for the contextId are empty (flag down) or exactly the
one the map records (flag up). -/
def Inv (contextId : String) (st : BusListenerState) (opened : Bool) : Prop :=
  (st.attached.map Prod.snd).Nodup ∧
  (∀ p ∈ st.attached, p.2 < st.nextId) ∧
  (∀ p ∈ st.contextListeners, p.2 < st.nextId) ∧
  (∀ p ∈ st.contextListeners, ∀ q ∈ st.contextListeners, p.2 = q.2 → p.1 = q.1) ∧
  (if opened then
    ∃ id, getKey st.contextListeners contextId = some id ∧
      st.attached.filter (fun p => p.1 = contextId) = [(contextId, id)]
   else
    st.attached.filter (fun p => p.1 = contextId) = [] ∧
      getKey st.contextListeners contextId = none)

end MomentoEventBus

/-! Result Manager (result_manager.ts).  The task store injected into it is
used through its save/load interface only; it is modelled as an association
list keyed by task id. -/

/-- Task store contents as seen through the TaskStore interface. -/
abbrev TaskStoreMap : Type := List (String × Task)

/-- TaskStore.load through the interface. -/
def storeLoad (store : TaskStoreMap) (taskId : String) : Option Task :=
  getKey store taskId

/-- TaskStore.save through the interface: overwrite under the task's id. -/
def storeSave (store : TaskStoreMap) (t : Task) : TaskStoreMap :=
  setKey store t.id t

/-- Internal state of a ResultManager (result_manager.ts lines 10-13). -/
structure RMState where
  currentTask : Option Task := none
  latestUserMessage : Option Message := none
  finalMessageResult : Option Message := none
deriving DecidableEq

namespace ResultManager

/-- The artifact-update reduction applied when the task is already held in
memory (result_manager.ts lines 97-124): on append, concatenate parts and
overwrite name/description when provided (JS truthiness) and merge metadata
with new keys winning; otherwise replace; insert when absent. -/
def applyArtifactHeld (arts : List Artifact) (ev : TaskArtifactUpdateEvent) :
    List Artifact :=
  match arts.findIdx? (fun a => a.artifactId = ev.artifact.artifactId) with
  | some i =>
      if ev.append then
        match arts[i]? with
        | some existing =>
            arts.set i
              { existing with
                parts := existing.parts ++ ev.artifact.parts
                description :=
                  if strTruthy ev.artifact.description then ev.artifact.description
                  else existing.description
                name :=
                  if strTruthy ev.artifact.name then ev.artifact.name
                  else existing.name
                metadata :=
                  match ev.artifact.metadata with
                  | some newMeta =>
                      some (objMerge (existing.metadata.getD []) newMeta)
                  | none => existing.metadata }
        | none => arts
      else arts.set i ev.artifact
  | none => arts ++ [ev.artifact]

/-- The artifact-update reduction applied right after the task was loaded
from the store (result_manager.ts lines 130-144): on append only the parts
are concatenated; name, description and metadata are left untouched. -/
def applyArtifactLoaded (arts : List Artifact) (ev : TaskArtifactUpdateEvent) :
    List Artifact :=
  match arts.findIdx? (fun a => a.artifactId = ev.artifact.artifactId) with
  | some i =>
      if ev.append then
        match arts[i]? with
        | some existing =>
            arts.set i { existing with parts := existing.parts ++ ev.artifact.parts }
        | none => arts
      else arts.set i ev.artifact
  | none => arts ++ [ev.artifact]

/-- Append the status message to history when its messageId is new
(result_manager.ts lines 54-67 and 75-87). -/
def historyWithStatusMessage (history : Option (List Message))
    (statusMessage : Option Message) : Option (List Message) :=
  match statusMessage with
  | none => history
  | some msg =>
      if (history.getD []).any (fun m => m.messageId = msg.messageId) then history
      else some ((history.getD []) ++ [msg])

/-- ResultManager.processEvent (result_manager.ts lines 28-153), returning
the updated manager state and store. -/
def processEvent (st : RMState) (store : TaskStoreMap)
    (event : AgentExecutionEvent) : RMState × TaskStoreMap :=
  match event with
  | .message m => ({ st with finalMessageResult := some m }, store)
  | .task t =>
      let t2 :=
        match st.latestUserMessage with
        | some latest =>
            if (t.history.getD []).any (fun m => m.messageId = latest.messageId)
            then t
            else { t with history := some (latest :: t.history.getD []) }
        | none => t
      ({ st with currentTask := some t2 }, storeSave store t2)
  | .statusUpdate up =>
      match st.currentTask with
      | some ct =>
          if ct.id = up.taskId then
            let ct2 := { ct with
              status := up.status
              history := historyWithStatusMessage ct.history up.status.message }
            ({ st with currentTask := some ct2 }, storeSave store ct2)
          else (st, store)
      | none =>
          if up.taskId ≠ "" then
            match storeLoad store up.taskId with
            | some loaded =>
                let ct2 := { loaded with
                  status := up.status
                  history := historyWithStatusMessage loaded.history up.status.message }
                ({ st with currentTask := some ct2 }, storeSave store ct2)
            | none => (st, store)
          else (st, store)
  | .artifactUpdate ev =>
      match st.currentTask with
      | some ct =>
          if ct.id = ev.taskId then
            let ct2 := { ct with
              artifacts := some (applyArtifactHeld (ct.artifacts.getD []) ev) }
            ({ st with currentTask := some ct2 }, storeSave store ct2)
          else (st, store)
      | none =>
          if ev.taskId ≠ "" then
            match storeLoad store ev.taskId with
            | some loaded =>
                let ct2 := { loaded with
                  artifacts := some (applyArtifactLoaded (loaded.artifacts.getD []) ev) }
                ({ st with currentTask := some ct2 }, storeSave store ct2)
            | none => (st, store)
          else (st, store)

end ResultManager

/-! Request Handler (request_handler.ts MomentoAgentRequestHandler). -/

/-- Error taxonomy of server/error.ts, as far as the claims need it. -/
inductive A2AErrorKind where
  | invalidParams (message : String)
  | taskNotFound (taskId : String)
  | taskNotCancelable (taskId : String)
  | pushNotificationNotSupported
  | internalError (message : String)
deriving DecidableEq

/-- JS Array.prototype.slice with one argument: a negative start counts back
from the end and clamps at 0; note that -0 is 0, so slice(-0) = slice(0). -/
def jsSlice {α : Type} (l : List α) (start : Int) : List α :=
  l.drop
    (if start < 0 then max ((l.length : Int) + start) 0
     else min start (l.length : Int)).toNat

namespace MomentoAgentRequestHandler

/-- getTask (request_handler.ts lines 248-260): load or TaskNotFound; when
historyLength is a number ≥ 0 and the history is an array, replace the
history with history.slice(-historyLength). -/
def getTask (store : TaskStoreMap) (id : String) (historyLength : Option Int) :
    Except A2AErrorKind Task :=
  match storeLoad store id with
  | none => .error (.taskNotFound id)
  | some task =>
      match historyLength, task.history with
      | some n, some h =>
          if 0 ≤ n then .ok { task with history := some (jsSlice h (-n)) }
          else .ok task
      | _, _ => .ok task

instance {ε α : Type} [DecidableEq ε] [DecidableEq α] :
    DecidableEq (Except ε α) := fun a b =>
  match a, b with
  | .ok x, .ok y =>
      if h : x = y then isTrue (by rw [h]) else isFalse (by simp [h])
  | .error x, .error y =>
      if h : x = y then isTrue (by rw [h]) else isFalse (by simp [h])
  | .ok _, .error _ => isFalse (by simp)
  | .error _, .ok _ => isFalse (by simp)

/-- Outcome of a cancelTask call: its result, the store afterwards, and the
events published on the bus. -/
structure CancelOutcome where
  result : Except A2AErrorKind Task
  store : TaskStoreMap
  published : List AgentExecutionEvent
deriving DecidableEq

/-- cancelTask (request_handler.ts lines 263-295): load or TaskNotFound; on
a terminal state throw TaskNotCancelable before any write; otherwise set a
canceled status with a synthetic agent message, save, publish a final
StatusUpdate, and return the canceled task.  uuid and now stand for the
fresh messageId and timestamp drawn during the call. -/
def cancelTask (store : TaskStoreMap) (id : String) (uuid now : String) :
    CancelOutcome :=
  match storeLoad store id with
  | none => { result := .error (.taskNotFound id), store := store, published := [] }
  | some task =>
      if isFinalState task.status.state then
        { result := .error (.taskNotCancelable id), store := store, published := [] }
      else
        let task2 := { task with
          status := {
            state := "canceled"
            message := some {
              messageId := uuid
              role := "agent"
              parts := [.text "Task cancellation requested by user." none]
              taskId := some task.id
              contextId := some task.contextId }
            timestamp := some now } }
        { result := .ok task2
          store := storeSave store task2
          published := [.statusUpdate {
            taskId := task.id
            contextId := task.contextId
            status := task2.status
            final := true }] }

end MomentoAgentRequestHandler

/-! Executor (src/agent/executor.ts, the version exercised by
test/agent.executor.spec.ts; MomentoAgentExecutor). -/

/-- Partial task returned by a handler: Partial of Task tagged kind task. -/
structure TaskPatch where
  id : Option String := none
  contextId : Option String := none
  status : Option TaskStatus := none
  history : Option (List Message) := none
  artifacts : Option (List Artifact) := none
  metadata : Option Meta := none
deriving DecidableEq

/-- The three return shapes of a handler (MomentoAgentHandlerResult). -/
inductive HandlerResult where
  | strRes (s : String)
  | partsRes (parts : Option (List Part)) (artifacts : Option (List Artifact))
      (metadata : Option Meta)
  | taskRes (patch : TaskPatch)
deriving DecidableEq

/-- The agentName/agentId metadata attached to executor events.  Keys whose
value is undefined are dropped, as JSON.stringify drops them when the event
is published. -/
def agentMeta (agentName agentId : Option String) : Meta :=
  (match agentName with
   | some s => [("agentName", MVal.str s)]
   | none => []) ++
  (match agentId with
   | some s => [("agentId", MVal.str s)]
   | none => [])

namespace MomentoAgentExecutor

/-- initializeTask (executor lines 170-190): reuse the base task's id, take
ids from the message, or draw fresh uuids (uuidA for the task id, uuidB for
the contextId); status submitted carrying the message; history is the base
history plus the message; metadata merges base metadata, message metadata
and the agent identity. -/
def initializeTask (base : Option Task) (message : Message)
    (agentName agentId : Option String) (now uuidA uuidB : String) : Task :=
  { id :=
      match base with
      | some b => b.id
      | none => message.taskId.getD uuidA
    contextId :=
      message.contextId.getD
        (match base with
         | some b => b.contextId
         | none => uuidB)
    status := { state := "submitted", message := some message, timestamp := some now }
    history := some ((base.bind Task.history).getD [] ++ [message])
    artifacts := some ((base.bind Task.artifacts).getD [])
    metadata := some (objMerge
      (objMerge ((base.bind Task.metadata).getD []) (message.metadata.getD []))
      (agentMeta agentName agentId)) }

/-- The result-translation step inside the try block (executor lines 73-110):
resolves the handler result into the completed task, or throws (Except.error)
when a task patch lacks status.message or status.state. -/
def translateResult (task : Task) (message : Message) (now : String) :
    HandlerResult → Except String Task
  | .strRes s =>
      .ok { task with status := { task.status with
        state := "completed"
        message := some { message with parts := [.text s none] }
        timestamp := some now } }
  | .partsRes p a m =>
      if p.isSome || a.isSome || m.isSome then
        let t1 := { task with status := { task.status with
          state := "completed"
          message := some { message with parts := p.getD [] }
          timestamp := some now } }
        let t2 :=
          match a with
          | some arts =>
              if arts ≠ [] then
                { t1 with artifacts := some (t1.artifacts.getD [] ++ arts) }
              else t1
          | none => t1
        let t3 :=
          match m with
          | some md => { t2 with metadata := some (objMerge (t2.metadata.getD []) md) }
          | none => t2
        .ok t3
      else .ok task
  | .taskRes patch =>
      let merged : Task := {
        id := patch.id.getD task.id
        contextId := patch.contextId.getD task.contextId
        status := patch.status.getD task.status
        history := match patch.history with
          | some h => some h
          | none => task.history
        artifacts := match patch.artifacts with
          | some a => some a
          | none => task.artifacts
        metadata := match patch.metadata with
          | some m => some m
          | none => task.metadata }
      if merged.status.message.isSome ∧ merged.status.state ≠ "" then .ok merged
      else .error "If returning a Task, you must provide at least status.message and status.state"

/-- Ensure the original message appears in the result task's history
(executor lines 113-119). -/
def ensureMessageInHistory (t : Task) (message : Message) : Task :=
  match t.history with
  | some h =>
      if h.any (fun m => m.messageId = message.messageId) then t
      else { t with history := some (h ++ [message]) }
  | none => { t with history := some [message] }

/-- The failed StatusUpdate built in the catch block (executor lines
137-164). -/
def failedUpdate (task : Task) (message : Message)
    (agentName agentId : Option String) (errMessage now : String) :
    TaskStatusUpdateEvent :=
  { taskId := task.id
    contextId := task.contextId
    status := {
      state := "failed"
      message := some { message with
        parts := [.text ("Agent execution failed: " ++ errMessage) none] }
      timestamp := some now }
    final := true
    metadata := some (agentMeta agentName agentId) }

/-- MomentoAgentExecutor.execute (executor lines 42-167), as the sequence of
events it publishes.  handlerOutcome is the settled result of awaiting the
user handler: a value or a thrown error message.  Timestamps are abstracted
to the single instant now. -/
def execute (agentName agentId : Option String) (message : Message)
    (contextTask : Option Task) (handlerOutcome : Except String HandlerResult)
    (now uuidA uuidB : String) : List AgentExecutionEvent :=
  let task := initializeTask contextTask message agentName agentId now uuidA uuidB
  let initEvents : List AgentExecutionEvent :=
    if contextTask.isNone then [.task task] else []
  let workingUpdate : TaskStatusUpdateEvent := {
    taskId := task.id
    contextId := task.contextId
    status := { state := "working", message := some message, timestamp := some now }
    final := false
    metadata := some (agentMeta agentName agentId) }
  let head := initEvents ++ [.statusUpdate workingUpdate]
  match handlerOutcome with
  | .error errMessage =>
      head ++ [.statusUpdate (failedUpdate task message agentName agentId errMessage now)]
  | .ok hr =>
      match translateResult task message now hr with
      | .error errMessage =>
          head ++ [.statusUpdate (failedUpdate task message agentName agentId errMessage now)]
      | .ok resultTask =>
          let resultTask2 := ensureMessageInHistory resultTask message
          let completedUpdate : TaskStatusUpdateEvent := {
            taskId := resultTask2.id
            contextId := resultTask2.contextId
            status := {
              state := resultTask2.status.state
              message := resultTask2.status.message
              timestamp := some (resultTask2.status.timestamp.getD now) }
            final := true
            metadata := some (agentMeta agentName agentId) }
          head ++ [.statusUpdate completedUpdate]

/-- The echo handler of the spec's first end-to-end scenario:
m goes to the string Echo plus the text of the first part. -/
def echoHandler (m : Message) : Except String HandlerResult :=
  .ok (.strRes ("Echo: " ++
    (match m.parts with
     | .text t _ :: _ => t
     | _ => "")))

end MomentoAgentExecutor

/-! Task Store (src/store/task_store.ts MomentoTaskStore).  The cache is the
key-value view the MomentoClient provides; values record which of the
client's serialization branches stored them.  The platform primitives
atob/btoa and JSON.stringify/JSON.parse are not repository code and are
modelled as transparent inverse codecs. -/

/-- Values held in the cache, by serialization branch of MomentoClient.set:
raw bytes, a verbatim string, or a JSON-serialized structured value (a task
or a data payload). -/
inductive CVal where
  | bytes (bs : List Nat)
  | strV (s : String)
  | jsonTask (t : Task)
  | jsonData (d : DataVal)
deriving DecidableEq

/-- Cache contents. -/
abbrev Cache : Type := List (String × CVal)

/-- MomentoClient.set as a map update: newest entry wins on lookup. -/
def cacheSet (c : Cache) (k : String) (v : CVal) : Cache := (k, v) :: c

/-- MomentoClient.get: first (newest) entry for the key. -/
def cacheGet (c : Cache) (k : String) : Option CVal := getKey c k

/-- atob composed with charCodeAt (task_store.ts base64ToUint8Array): the
platform base64 decoder, modelled as a transparent codec to byte values. -/
def base64ToUint8Array (s : String) : List Nat := s.toList.map Char.toNat

/-- btoa(String.fromCharCode(...bytes)) (task_store.ts load): the platform
base64 encoder, inverse of the decoder above. -/
def uint8ArrayToBase64 (bs : List Nat) : String := String.mk (bs.map Char.ofNat)

/-- The derived blob key artifact:taskId:artifactId:uuid. -/
def derivedKey (taskId artifactId uuid : String) : String :=
  "artifact:" ++ taskId ++ ":" ++ artifactId ++ ":" ++ uuid

namespace MomentoTaskStore

/-- Externalization of one artifact part during save (task_store.ts lines
149-170): a file part with truthy inline bytes, or a data part with a
payload, is written to a derived key; the part keeps a cacheKey metadata
pointer and loses its inline payload.  uuid k is the k-th fresh uuid drawn;
returns the part as mutated, the cache entries written, and the next
counter. -/
def externalizePart (taskId artifactId : String) (uuid : Nat → String)
    (k : Nat) : Part → Part × List (String × CVal) × Nat
  | .file (some f) md =>
      match f.bytes with
      | some b =>
          if b ≠ "" then
            let ck := derivedKey taskId artifactId (uuid k)
            (.file none (some (setKey (md.getD []) "cacheKey" (.str ck))),
              [(ck, .bytes (base64ToUint8Array b))], k + 1)
          else (.file (some f) md, [], k)
      | none => (.file (some f) md, [], k)
  | .data (some d) md =>
      let ck := derivedKey taskId artifactId (uuid k)
      (.data none (some (setKey (md.getD []) "cacheKey" (.str ck))),
        [(ck, .jsonData d)], k + 1)
  | p => (p, [], k)

/-- Externalization over the parts of one artifact, in order. -/
def externalizeParts (taskId artifactId : String) (uuid : Nat → String)
    (k : Nat) : List Part → List Part × List (String × CVal) × Nat
  | [] => ([], [], k)
  | p :: rest =>
      let r1 := externalizePart taskId artifactId uuid k p
      let r2 := externalizeParts taskId artifactId uuid r1.2.2 rest
      (r1.1 :: r2.1, r1.2.1 ++ r2.2.1, r2.2.2)

/-- Externalization over the artifacts of a task, in order. -/
def externalizeArtifacts (taskId : String) (uuid : Nat → String) (k : Nat) :
    List Artifact → List Artifact × List (String × CVal) × Nat
  | [] => ([], [], k)
  | a :: rest =>
      let r1 := externalizeParts taskId a.artifactId uuid k a.parts
      let r2 := externalizeArtifacts taskId uuid r1.2.2 rest
      ({ a with parts := r1.1 } :: r2.1, r1.2.1 ++ r2.2.1, r2.2.2)

/-- MomentoTaskStore.save (task_store.ts lines 144-177): externalize artifact
payloads, then store the whole (mutated) task under its id.  Because the
TypeScript mutates the caller's task in place, the mutated task is returned
alongside the cache. -/
def save (cache : Cache) (uuid : Nat → String) (task : Task) : Cache × Task :=
  let r :
      Task × List (String × CVal) :=
    match task.artifacts with
    | some arts =>
        let e := externalizeArtifacts task.id uuid 0 arts
        ({ task with artifacts := some e.1 }, e.2.1)
    | none => (task, [])
  (cacheSet (r.2.foldl (fun c e => cacheSet c e.1 e.2) cache) r.1.id
    (.jsonTask r.1), r.1)

/-- Rehydration of one part during load (task_store.ts lines 115-136): a
file or data part whose metadata carries a truthy cacheKey has its payload
fetched from the cache and the cacheKey entry removed.  A cacheKey whose
metadata value is not a string, or a blob entry stored in another branch
than the store itself writes, is outside the model. -/
def rehydratePart (cache : Cache) : Part → Part
  | .file f (some m) =>
      (match getKey m "cacheKey" with
       | some (.str ck) =>
           if ck ≠ "" then
             let f2 :=
               match cacheGet cache ck with
               | some (.bytes bs) => some { bytes := some (uint8ArrayToBase64 bs) }
               | _ => f
             .file f2 (some (delKey m "cacheKey"))
           else .file f (some m)
       | _ => .file f (some m))
  | .data d (some m) =>
      (match getKey m "cacheKey" with
       | some (.str ck) =>
           if ck ≠ "" then
             let d2 :=
               match cacheGet cache ck with
               | some (.jsonData dv) => some dv
               | _ => d
             .data d2 (some (delKey m "cacheKey"))
           else .data d (some m)
       | _ => .data d (some m))
  | p => p

/-- MomentoTaskStore.load (task_store.ts lines 108-142): fetch the task JSON
by id; when its artifacts are an array, rehydrate every part. -/
def load (cache : Cache) (taskId : String) : Option Task :=
  match cacheGet cache taskId with
  | some (.jsonTask t) =>
      match t.artifacts with
      | some arts =>
          let arts2 := arts.map
            (fun a => { a with parts := a.parts.map (rehydratePart cache) })
          some { t with artifacts := some arts2 }
      | none => some t
  | _ => none

/-- A part carries an inline payload when save would externalize it: a file
part with truthy bytes or a data part with a payload. -/
def hasInlinePayload : Part → Bool
  | .file (some f) _ => strTruthy f.bytes
  | .data (some _) _ => true
  | _ => false

/-- The cacheKey metadata entry of a part, when present. -/
def partCacheKey : Part → Option MVal
  | .text _ md | .file _ md | .data _ md => getKey (md.getD []) "cacheKey"

/-- Modelled from the amended claim: the image of a task after the save/load
round trip keeps every part as it was, except that an externalized part
whose metadata was absent surfaces an empty metadata object. -/
def normalizeSavedPart : Part → Part
  | .file (some f) md =>
      if strTruthy f.bytes then .file (some f) (some (md.getD []))
      else .file (some f) md
  | .data (some d) md => .data (some d) (some (md.getD []))
  | p => p

/-- Modelled from the amended claim: the save/load round-trip image of a
task. -/
def roundTripImage (t : Task) : Task :=
  { t with artifacts := t.artifacts.map (fun arts =>
      arts.map (fun a => { a with parts := a.parts.map normalizeSavedPart })) }

end MomentoTaskStore

/-! Concrete values used by the counterexamples and witnesses below. -/

/-- The user message of the echo scenario (spec section 8, scenario 1). -/
def echoMsg : Message :=
  { messageId := "m1", role := "user", parts := [.text "hello world" none] }

/-- A one-message history for the getTask examples. -/
def cMsg6 : Message := { messageId := "m1", role := "user", parts := [] }

/-- A stored task with a one-entry history. -/
def cTask6 : Task :=
  { id := "t1", contextId := "c1", status := { state := "working" }
    history := some [cMsg6] }

/-- A task in a non-terminal state, for the cancelTask examples. -/
def cTaskWorking : Task :=
  { id := "t1", contextId := "c1", status := { state := "working" }
    history := some [] }

/-- A task in a terminal state, for the cancelTask examples. -/
def cTaskDone : Task :=
  { id := "t2", contextId := "c1", status := { state := "completed" }
    history := some [] }

/-- First artifact event of the artifact-append scenario: append false. -/
def c3Ev1 : TaskArtifactUpdateEvent :=
  { taskId := "t1", contextId := "c1", append := false
    artifact := { artifactId := "a1", parts := [.text "a" none]
                  name := some "file1", metadata := some [("foo", .num 1)] } }

/-- Second artifact event of the artifact-append scenario: append true with a
new name and metadata. -/
def c3Ev2 : TaskArtifactUpdateEvent :=
  { taskId := "t1", contextId := "c1", append := true
    artifact := { artifactId := "a1", parts := [.text "b" none]
                  name := some "file2", metadata := some [("bar", .num 2)] } }

/-- The stored task the artifact scenario starts from: no artifacts yet. -/
def c3Task0 : Task :=
  { id := "t1", contextId := "c1", status := { state := "working" }
    history := some [], artifacts := some [] }

/-- Store holding the artifact-scenario task. -/
def c3Store0 : TaskStoreMap := [("t1", c3Task0)]

/-- A stored task that already holds the artifact the counterexample appends
to, with a name and metadata the claim expects to be merged. -/
def c3TaskHeldInStore : Task :=
  { id := "t1", contextId := "c1", status := { state := "working" }
    history := some []
    artifacts := some [{ artifactId := "a1", parts := [.text "a" none]
                         name := some "file1", metadata := some [("foo", .num 1)] }] }

/-- A task with one file artifact part whose inline payload is present and
whose metadata is absent, for the round-trip counterexample. -/
def c9Task : Task :=
  { id := "t1", contextId := "c1", status := { state := "completed" }
    artifacts := some [{ artifactId := "a1"
                         parts := [.file (some { bytes := some "QQ" }) none] }] }

/-- A deterministic uuid supply for the store examples. -/
def exUuid (k : Nat) : String := "u" ++ toString k

/-! Theorems.  Each claim of the specification audit is settled by exactly
one theorem below (with a counterexample theorem where the claim as stated
fails, and a witness theorem where the main theorem carries hypotheses). -/

/-- C4 (counterexample): on the poll input of the claim, the discontinuity
notification the bus emits is disco c1 6 5, not the claimed
fromSequence = 1: the code advances seqNum before emitting, so the claimed
notification never appears. -/
theorem c4_counterexample :
    (MomentoEventBus.processItems "c1" { seqNum := 0, seqPage := 0 }
        [.item 0 "evt", .discontinuity 5 2]).2 =
      [.event "evt", .disco "c1" 6 5] ∧
    BusNotification.disco "c1" 1 5 ∉
      (MomentoEventBus.processItems "c1" { seqNum := 0, seqPage := 0 }
        [.item 0 "evt", .discontinuity 5 2]).2 := by
  constructor
  · rfl
  · decide

/-- C4 (amended): for every poll iteration receiving a discontinuity item,
the bus first advances seqNum to new_topic_sequence + 1 and seqPage to
new_sequence_page, and then emits a discontinuity notification whose
fromSequence is that advanced seqNum (new_topic_sequence + 1) and whose
toSequence is new_topic_sequence; the rest of the items are processed from
the advanced state.  On the concrete input of the claim the notification is
disco contextId 6 5 and the next poll begins at sequence 6, page 2. -/
theorem c4_discontinuity_amended :
    (∀ (ctx : String) (st : PollState) (nts nsp : Nat) (rest : List TopicItem),
      MomentoEventBus.processItems ctx st (.discontinuity nts nsp :: rest) =
        ((MomentoEventBus.processItems ctx { seqNum := nts + 1, seqPage := nsp } rest).1,
          .disco ctx (nts + 1) nts ::
            (MomentoEventBus.processItems ctx { seqNum := nts + 1, seqPage := nsp } rest).2)) ∧
    MomentoEventBus.processItems "c1" { seqNum := 0, seqPage := 0 }
        [.item 0 "evt", .discontinuity 5 2] =
      ({ seqNum := 6, seqPage := 2 }, [.event "evt", .disco "c1" 6 5]) := by
  constructor
  · intro ctx st nts nsp rest
    rfl
  · rfl

/-- C6 (counterexample): with a stored task whose history has one entry,
getTask with historyLength 0 returns the full one-entry history, not the
empty history the claim asserts, because slice(-0) is slice(0). -/
theorem c6_counterexample :
    MomentoAgentRequestHandler.getTask [("t1", cTask6)] "t1" (some 0) =
      .ok cTask6 ∧ cTask6.history ≠ some [] := by
  constructor
  · rfl
  · decide

/-- C6 (amended): for a stored task, a positive historyLength N returns the
last N history entries (all of them when N exceeds the length); a
historyLength of 0 returns the full history, since JS slice(-0) equals
slice(0); an absent historyLength returns the full history; an id with no
stored task fails with TaskNotFound. -/
theorem c6_get_task_amended :
    ∀ (store : TaskStoreMap) (id : String) (task : Task) (h : List Message)
      (n : Nat) (hl : Option Int),
      (storeLoad store id = some task → task.history = some h →
        (0 < n → MomentoAgentRequestHandler.getTask store id (some (n : Int)) =
          .ok { task with history := some (h.drop (h.length - n)) }) ∧
        MomentoAgentRequestHandler.getTask store id (some 0) =
          .ok { task with history := some h } ∧
        MomentoAgentRequestHandler.getTask store id none = .ok task) ∧
      (storeLoad store id = none →
        MomentoAgentRequestHandler.getTask store id hl =
          .error (.taskNotFound id)) := by
  intro store id task h n hl
  constructor
  · intro hload hhist
    refine ⟨?_, ?_, ?_⟩
    · intro hn
      simp only [MomentoAgentRequestHandler.getTask, hload, hhist, jsSlice]
      have hneg : (-(n : Int) < 0) := by omega
      rw [if_pos hneg]
      have hidx : (max ((h.length : Int) + -(n : Int)) 0).toNat = h.length - n := by
        omega
      rw [hidx, if_pos (show (0 : Int) ≤ (n : Int) by omega)]
    · simp [MomentoAgentRequestHandler.getTask, hload, hhist, jsSlice]
    · simp [MomentoAgentRequestHandler.getTask, hload, hhist]
  · intro hload
    simp [MomentoAgentRequestHandler.getTask, hload]

/-- C6 (witness): the amended getTask theorem at a concrete store: a
positive historyLength of 1 on a one-entry history returns that entry. -/
theorem c6_witness :
    MomentoAgentRequestHandler.getTask [("t1", cTask6)] "t1" (some 1) =
      .ok { cTask6 with history := some [cMsg6] } :=
  ((c6_get_task_amended [("t1", cTask6)] "t1" cTask6 [cMsg6] 1 none).1
    (by decide) (by decide)).1 (by decide)

/-- C7 (counterexample): a request whose fetch attempts all resolve with an
HTTP 500 response is surfaced at once: makeRequest returns the 500 response
with no retry and no backoff sleep, because fetch resolves HTTP responses
and only rejections reach the transient classification — refuting the
claimed three retries with delays 100, 200 and 400 ms before a 5xx is
surfaced. -/
theorem c7_counterexample :
    MomentoClient.makeRequest (fun _ => .ok 500) = (.ok 500, []) ∧
    ([] : List Nat) ≠ [100, 200, 400] :=
  ⟨rfl, by decide⟩

/-- C7 (amended): for every request issued through the Adapter, a network
failure is retried up to 3 times with exponential backoff sleeps of 100,
200 and 400 ms before the error is surfaced, while every HTTP response —
4xx and 5xx alike — and every non-network rejection is returned directly
without any retry.  The HTTP-5xx arm of the transient classification is
unreachable, because retry wraps only fetch and fetch resolves HTTP
responses rather than throwing them. -/
theorem c7_request_retry_amended :
    ∀ fetchAttempts : Nat → FetchOutcome,
      (∀ s : Nat, fetchAttempts 0 = .ok s →
        MomentoClient.makeRequest fetchAttempts = (.ok s, [])) ∧
      ((∀ k, k ≤ 3 → fetchAttempts k = .networkError) →
        MomentoClient.makeRequest fetchAttempts =
          (.error .network, [100, 200, 400])) ∧
      (fetchAttempts 0 = .otherError →
        MomentoClient.makeRequest fetchAttempts = (.error .other, [])) := by
  intro fetchAttempts
  refine ⟨?_, ?_, ?_⟩
  · intro s h0
    simp [MomentoClient.makeRequest, MomentoClient.retry,
      MomentoClient.fetchSettled, h0]
  · intro hall
    have h0 := hall 0 (by omega)
    have h1 := hall 1 (by omega)
    have h2 := hall 2 (by omega)
    have h3 := hall 3 (by omega)
    simp [MomentoClient.makeRequest, MomentoClient.retry,
      MomentoClient.fetchSettled, h0, h1, h2, h3, ReqError.isTransient]
  · intro h0
    simp [MomentoClient.makeRequest, MomentoClient.retry,
      MomentoClient.fetchSettled, h0, ReqError.isTransient]

/-- C7 (witness): the amended theorem at concrete attempt outcomes: an
always-404 and an always-500 request are each surfaced directly with no
backoff, and an always-network-failing request is surfaced after sleeps of
100, 200 and 400 ms. -/
theorem c7_request_witness :
    MomentoClient.makeRequest (fun _ => .ok 404) = (.ok 404, []) ∧
    MomentoClient.makeRequest (fun _ => .ok 500) = (.ok 500, []) ∧
    MomentoClient.makeRequest (fun _ => .networkError) =
      (.error .network, [100, 200, 400]) := by
  refine ⟨?_, ?_, ?_⟩
  · exact (c7_request_retry_amended (fun _ => .ok 404)).1 404 rfl
  · exact (c7_request_retry_amended (fun _ => .ok 500)).1 500 rfl
  · exact (c7_request_retry_amended (fun _ => .networkError)).2.1 (fun k _ => rfl)

/-- Prepending a non-terminal-satisfying element keeps the dropLast-all
property.  Helper for the queue claim. -/
theorem dropLast_all_cons {α : Type} (p : α → Bool) (e : α) (l : List α)
    (hp : p e = true) (hl : (l.dropLast.all p) = true) :
    ((e :: l).dropLast.all p) = true := by
  cases l with
  | nil => rfl
  | cons y ys =>
      have hdl : (e :: y :: ys).dropLast = e :: (y :: ys).dropLast := rfl
      rw [hdl, List.all_cons, hp, Bool.true_and]
      exact hl

/-- Every run of the events generator yields a list in which only the last
yielded event can be terminal, and always leaves the bus without the
context's listener.  Helper for the queue claim. -/
theorem eventsLoop_spec (ctx : String) (bus : List String) :
    ∀ (l : List AgentExecutionEvent) (stopBudget : Option Nat),
      ((ExecutionEventQueue.eventsLoop ctx bus l stopBudget).yielded.dropLast.all
        (fun e => !e.isTerminalForQueue)) = true ∧
      (ExecutionEventQueue.eventsLoop ctx bus l stopBudget).busAfter =
        ExecutionEventQueue.unregisterContext bus ctx := by
  intro l
  induction l with
  | nil => intro sb; exact ⟨rfl, rfl⟩
  | cons e rest ih =>
    intro sb
    match sb with
    | some 0 => exact ⟨rfl, rfl⟩
    | none =>
      by_cases hterm : e.isTerminalForQueue
      · simp [ExecutionEventQueue.eventsLoop, hterm]
      · have ihr := ih none
        have hunf : ExecutionEventQueue.eventsLoop ctx bus (e :: rest) none =
            { yielded := e :: (ExecutionEventQueue.eventsLoop ctx bus rest none).yielded
              busAfter := (ExecutionEventQueue.eventsLoop ctx bus rest none).busAfter } := by
          simp [ExecutionEventQueue.eventsLoop, hterm]
        rw [hunf]
        refine ⟨?_, ihr.2⟩
        exact dropLast_all_cons _ e _ (by simp [hterm]) ihr.1
    | some (budget + 1) =>
      by_cases hterm : e.isTerminalForQueue
      · simp [ExecutionEventQueue.eventsLoop, hterm]
      · have ihr := ih (some budget)
        have hunf : ExecutionEventQueue.eventsLoop ctx bus (e :: rest) (some (budget + 1)) =
            { yielded := e :: (ExecutionEventQueue.eventsLoop ctx bus rest (some budget)).yielded
              busAfter := (ExecutionEventQueue.eventsLoop ctx bus rest (some budget)).busAfter } := by
          simp [ExecutionEventQueue.eventsLoop, hterm]
        rw [hunf]
        refine ⟨?_, ihr.2⟩
        exact dropLast_all_cons _ e _ (by simp [hterm]) ihr.1

/-- C2: for every queue run — any incoming event sequence, any stop() point
(including none) — once a message event or a final status-update has been
yielded nothing more is yielded (every yielded event except the last is
non-terminal), and the run leaves the bus with the queue's context listener
removed via unregisterContext, on normal and forced termination alike. -/
theorem c2_queue_terminal_last :
    ∀ (ctx : String) (incoming : List AgentExecutionEvent)
      (stopAfter : Option Nat) (bus : List String),
      ((ExecutionEventQueue.run ctx incoming stopAfter bus).yielded.dropLast.all
        (fun e => !e.isTerminalForQueue)) = true ∧
      (ExecutionEventQueue.run ctx incoming stopAfter bus).busAfter =
        ExecutionEventQueue.unregisterContext bus ctx := by
  intro ctx incoming stopAfter bus
  exact eventsLoop_spec ctx bus
    (incoming.filter (fun e => e.contextIdOf = some ctx)) stopAfter

/-- C5: cancelTask on an id with no stored task fails with TaskNotFound; on
a stored task in a terminal state (completed, failed, canceled or rejected)
it fails with TaskNotCancelable, leaving the store untouched and publishing
nothing; on a stored task in a non-terminal state it sets a canceled status
carrying a synthetic agent message, saves the canceled task, publishes a
StatusUpdate with final true carrying that status, and returns the canceled
task. -/
theorem c5_cancel_task :
    ∀ (store : TaskStoreMap) (id uuid now : String),
      (storeLoad store id = none →
        MomentoAgentRequestHandler.cancelTask store id uuid now =
          { result := .error (.taskNotFound id), store := store, published := [] }) ∧
      (∀ task : Task, storeLoad store id = some task →
        (isFinalState task.status.state = true →
          MomentoAgentRequestHandler.cancelTask store id uuid now =
            { result := .error (.taskNotCancelable id), store := store,
              published := [] }) ∧
        (isFinalState task.status.state = false →
          MomentoAgentRequestHandler.cancelTask store id uuid now =
            (let task2 : Task := { task with status := {
                state := "canceled"
                message := some {
                  messageId := uuid
                  role := "agent"
                  parts := [.text "Task cancellation requested by user." none]
                  taskId := some task.id
                  contextId := some task.contextId }
                timestamp := some now } }
             { result := .ok task2
               store := storeSave store task2
               published := [.statusUpdate {
                 taskId := task.id
                 contextId := task.contextId
                 status := task2.status
                 final := true }] }))) := by
  intro store id uuid now
  constructor
  · intro hload
    simp [MomentoAgentRequestHandler.cancelTask, hload]
  · intro task hload
    constructor
    · intro hfin
      simp [MomentoAgentRequestHandler.cancelTask, hload, hfin]
    · intro hfin
      simp [MomentoAgentRequestHandler.cancelTask, hload, hfin]

/-- C5 (witness): cancelTask at a concrete store holding a working task and
a completed task: the completed one is not cancelable, the working one is
canceled with a final StatusUpdate published and the canceled task saved. -/
theorem c5_witness :
    (MomentoAgentRequestHandler.cancelTask [("t1", cTaskWorking), ("t2", cTaskDone)]
        "t2" "u1" "now").result = .error (.taskNotCancelable "t2") ∧
    (MomentoAgentRequestHandler.cancelTask [("t1", cTaskWorking), ("t2", cTaskDone)]
        "t0" "u1" "now").result = .error (.taskNotFound "t0") ∧
    (MomentoAgentRequestHandler.cancelTask [("t1", cTaskWorking), ("t2", cTaskDone)]
        "t1" "u1" "now").published =
      [.statusUpdate {
        taskId := "t1"
        contextId := "c1"
        status := {
          state := "canceled"
          message := some {
            messageId := "u1"
            role := "agent"
            parts := [.text "Task cancellation requested by user." none]
            taskId := some "t1"
            contextId := some "c1" }
          timestamp := some "now" }
        final := true }] := by
  refine ⟨?_, ?_, ?_⟩
  · have h := ((c5_cancel_task [("t1", cTaskWorking), ("t2", cTaskDone)]
      "t2" "u1" "now").2 cTaskDone (by decide)).1 (by decide)
    rw [h]
  · have h := (c5_cancel_task [("t1", cTaskWorking), ("t2", cTaskDone)]
      "t0" "u1" "now").1 (by decide)
    rw [h]
  · have h := ((c5_cancel_task [("t1", cTaskWorking), ("t2", cTaskDone)]
      "t1" "u1" "now").2 cTaskWorking (by decide)).2 (by decide)
    rw [h]
    rfl

/-- C1: whenever the handler resolves to a plain string, execute ends its
event sequence with a StatusUpdate carrying final true, state completed, and
as status.message the original user message with its parts replaced by the
single text part holding exactly the returned string; in particular, running
the echo handler on the hello-world message ends with a final completed
StatusUpdate whose message parts are the single text part
Echo: hello world. -/
theorem c1_execute_string_result :
    ∀ (agentName agentId : Option String) (msg : Message) (contextTask : Option Task)
      (now uuidA uuidB s : String),
      ((MomentoAgentExecutor.execute agentName agentId msg contextTask
          (.ok (.strRes s)) now uuidA uuidB).getLast? =
        some (.statusUpdate {
          taskId := (MomentoAgentExecutor.initializeTask contextTask msg agentName
            agentId now uuidA uuidB).id
          contextId := (MomentoAgentExecutor.initializeTask contextTask msg agentName
            agentId now uuidA uuidB).contextId
          status := {
            state := "completed"
            message := some { msg with parts := [.text s none] }
            timestamp := some now }
          final := true
          metadata := some (agentMeta agentName agentId) })) ∧
      ((MomentoAgentExecutor.execute none none echoMsg none
          (MomentoAgentExecutor.echoHandler echoMsg) now uuidA uuidB).getLast? =
        some (.statusUpdate {
          taskId := uuidA
          contextId := uuidB
          status := {
            state := "completed"
            message := some { echoMsg with parts := [.text "Echo: hello world" none] }
            timestamp := some now }
          final := true
          metadata := some [] })) := by
  have key : ∀ (an ai : Option String) (msg : Message) (ct : Option Task)
      (now uA uB s : String),
      (MomentoAgentExecutor.execute an ai msg ct (.ok (.strRes s)) now uA uB).getLast? =
        some (.statusUpdate {
          taskId := (MomentoAgentExecutor.initializeTask ct msg an ai now uA uB).id
          contextId := (MomentoAgentExecutor.initializeTask ct msg an ai now uA uB).contextId
          status := {
            state := "completed"
            message := some { msg with parts := [.text s none] }
            timestamp := some now }
          final := true
          metadata := some (agentMeta an ai) }) := by
    intro an ai msg ct now uA uB s
    have hany : (((ct.bind Task.history).getD [] ++ [msg]).any
        (fun m => m.messageId = msg.messageId)) = true := by simp
    simp only [MomentoAgentExecutor.execute, MomentoAgentExecutor.translateResult,
      MomentoAgentExecutor.ensureMessageInHistory,
      MomentoAgentExecutor.initializeTask, hany, if_true]
    rw [List.getLast?_concat]
    rfl
  intro an ai msg ct now uA uB s
  refine ⟨key an ai msg ct now uA uB s, ?_⟩
  have h := key none none echoMsg none now uA uB "Echo: hello world"
  simpa [MomentoAgentExecutor.echoHandler, echoMsg, agentMeta,
    MomentoAgentExecutor.initializeTask] using h

/-- C3 (counterexample): a Result Manager holding no task loads it from the
store; an append:true ArtifactUpdate carrying name file2 and metadata bar:2
then only concatenates the parts — the artifact's name stays file1 and its
metadata stays without bar — contradicting the claim's overwrite-and-merge
for the load path. -/
theorem c3_counterexample :
    (ResultManager.processEvent
        { currentTask := none, latestUserMessage := none, finalMessageResult := none }
        [("t1", c3TaskHeldInStore)] (.artifactUpdate c3Ev2)).1.currentTask =
      some { c3TaskHeldInStore with artifacts := some [{
        artifactId := "a1"
        parts := [.text "a" none, .text "b" none]
        name := some "file1"
        metadata := some [("foo", MVal.num 1)] }] } ∧
    (some "file1" : Option String) ≠ some "file2" ∧
    getKey [("foo", MVal.num 1)] "bar" = none := by
  refine ⟨?_, by decide, by decide⟩
  rfl

/-- C3 (amended): when the Result Manager already holds the task in memory,
an append:true ArtifactUpdate for an existing artifactId concatenates the
parts, overwrites name and description when the event provides them, and
merges metadata with new keys winning; when the manager instead has to load
the task from the store, only the parts are concatenated and name,
description and metadata are left unchanged.  The claim's concrete two-event
scenario (append:false with part a, then append:true with part b, name
file2, metadata bar:2) does hold, because the first event leaves the task
held in memory: the final artifact has parts a and b, name file2 and
metadata foo:1, bar:2. -/
theorem c3_artifact_append_amended :
    (∀ (st : RMState) (store : TaskStoreMap) (ct : Task) (arts : List Artifact)
        (i : Nat) (a : Artifact) (ev : TaskArtifactUpdateEvent),
      ev.append = true →
      arts.findIdx? (fun x => x.artifactId = ev.artifact.artifactId) = some i →
      arts[i]? = some a →
      (st.currentTask = some ct → ct.id = ev.taskId → ct.artifacts = some arts →
        (ResultManager.processEvent st store (.artifactUpdate ev)).1.currentTask =
          some { ct with artifacts := some (arts.set i
            { a with
              parts := a.parts ++ ev.artifact.parts
              description :=
                if strTruthy ev.artifact.description then ev.artifact.description
                else a.description
              name :=
                if strTruthy ev.artifact.name then ev.artifact.name else a.name
              metadata :=
                match ev.artifact.metadata with
                | some nm => some (objMerge (a.metadata.getD []) nm)
                | none => a.metadata }) }) ∧
      (st.currentTask = none → ev.taskId ≠ "" → storeLoad store ev.taskId = some ct →
        ct.artifacts = some arts →
        (ResultManager.processEvent st store (.artifactUpdate ev)).1.currentTask =
          some { ct with artifacts := some (arts.set i
            { a with parts := a.parts ++ ev.artifact.parts }) })) ∧
    ((ResultManager.processEvent
        (ResultManager.processEvent
          { currentTask := none, latestUserMessage := none, finalMessageResult := none }
          c3Store0 (.artifactUpdate c3Ev1)).1
        (ResultManager.processEvent
          { currentTask := none, latestUserMessage := none, finalMessageResult := none }
          c3Store0 (.artifactUpdate c3Ev1)).2
        (.artifactUpdate c3Ev2)).1.currentTask =
      some { c3Task0 with artifacts := some [{
        artifactId := "a1"
        parts := [.text "a" none, .text "b" none]
        name := some "file2"
        metadata := some [("foo", MVal.num 1), ("bar", MVal.num 2)] }] }) := by
  constructor
  · intro st store ct arts i a ev happ hfind hget
    constructor
    · intro hcur hid harts
      simp only [ResultManager.processEvent, hcur, hid, if_pos, harts,
        Option.getD_some, ResultManager.applyArtifactHeld, hfind, happ, hget]
    · intro hcur hne hload harts
      simp only [ResultManager.processEvent, hcur, hload, harts,
        Option.getD_some, ResultManager.applyArtifactLoaded, hfind, happ, hget,
        if_pos, ne_eq, hne, not_false_eq_true]
  · rfl

/-- getKey on a cons: the head binding wins when its key matches. -/
theorem getKey_cons {V : Type} (k2 : String) (v2 : V) (m : List (String × V))
    (k : String) :
    getKey ((k2, v2) :: m) k = if k2 = k then some v2 else getKey m k := by
  cases hbe : (k == k2) with
  | true =>
      have hk : k2 = k := (beq_iff_eq.mp hbe).symm
      simp [getKey, List.lookup, hbe, hk]
  | false =>
      have hk : ¬ k2 = k := by
        intro hcontra
        rw [hcontra] at hbe
        simp at hbe
      simp [getKey, List.lookup, hbe, hk]

/-- setKey then getKey at the same key yields the new value. -/
theorem getKey_setKey_self {V : Type} (m : List (String × V)) (k : String) (v : V) :
    getKey (setKey m k v) k = some v := by
  induction m with
  | nil => simp [setKey, getKey_cons]
  | cons p rest ih =>
      obtain ⟨k2, v2⟩ := p
      by_cases h : k2 = k
      · simp [setKey, h, getKey_cons]
      · simp [setKey, h, getKey_cons, ih]

/-- setKey leaves other keys untouched. -/
theorem getKey_setKey_ne {V : Type} (m : List (String × V)) (k kb : String) (v : V)
    (h : kb ≠ k) : getKey (setKey m k v) kb = getKey m kb := by
  induction m with
  | nil =>
      rw [show setKey ([] : List (String × V)) k v = [(k, v)] from rfl,
        getKey_cons, if_neg (fun hc => h hc.symm)]
  | cons p rest ih =>
      obtain ⟨k2, v2⟩ := p
      by_cases h2 : k2 = k
      · rw [show setKey ((k2, v2) :: rest) k v = (k, v) :: rest from by
            simp [setKey, h2],
          getKey_cons, if_neg (fun hc => h hc.symm), getKey_cons,
          if_neg (by rw [h2]; exact fun hc => h hc.symm)]
      · rw [show setKey ((k2, v2) :: rest) k v = (k2, v2) :: setKey rest k v from by
            simp [setKey, h2],
          getKey_cons, getKey_cons, ih]

/-- Members of a setKey result come from the map or are the new binding. -/
theorem mem_setKey {V : Type} (m : List (String × V)) (k : String) (v : V)
    (p : String × V) (hp : p ∈ setKey m k v) : p ∈ m ∨ p = (k, v) := by
  induction m with
  | nil => simpa [setKey] using hp
  | cons q rest ih =>
      obtain ⟨k2, v2⟩ := q
      by_cases h : k2 = k
      · rw [show setKey ((k2, v2) :: rest) k v = (k, v) :: rest by simp [setKey, h]] at hp
        rcases List.mem_cons.mp hp with h1 | h1
        · right; exact h1
        · left; exact List.mem_cons_of_mem _ h1
      · rw [show setKey ((k2, v2) :: rest) k v = (k2, v2) :: setKey rest k v by
          simp [setKey, h]] at hp
        rcases List.mem_cons.mp hp with h1 | h1
        · left; rw [h1]; exact List.mem_cons_self _ _
        · rcases ih h1 with h2 | h2
          · left; exact List.mem_cons_of_mem _ h2
          · right; exact h2

/-- delKey then getKey at the deleted key yields nothing. -/
theorem getKey_delKey_self {V : Type} (m : List (String × V)) (k : String) :
    getKey (delKey m k) k = none := by
  induction m with
  | nil => rfl
  | cons p rest ih =>
      obtain ⟨k2, v2⟩ := p
      by_cases h : k2 = k
      · simpa [delKey, List.filter_cons, h] using ih
      · simpa [delKey, List.filter_cons, h, getKey_cons] using ih

/-- delKey leaves other keys untouched. -/
theorem getKey_delKey_ne {V : Type} (m : List (String × V)) (k kb : String)
    (h : kb ≠ k) : getKey (delKey m k) kb = getKey m kb := by
  induction m with
  | nil => rfl
  | cons p rest ih =>
      obtain ⟨k2, v2⟩ := p
      by_cases h2 : k2 = k
      · rw [show delKey ((k2, v2) :: rest) k = delKey rest k from by
            simp [delKey, List.filter_cons, h2],
          ih, getKey_cons, if_neg (by rw [h2]; exact fun hc => h hc.symm)]
      · rw [show delKey ((k2, v2) :: rest) k = (k2, v2) :: delKey rest k from by
            simp [delKey, List.filter_cons, h2],
          getKey_cons, getKey_cons, ih]

/-- Members of a delKey result were members of the map. -/
theorem mem_delKey {V : Type} (m : List (String × V)) (k : String)
    (p : String × V) (hp : p ∈ delKey m k) : p ∈ m :=
  (List.mem_filter.mp hp).1

/-- A successful getKey exhibits a member binding. -/
theorem getKey_mem_of_eq {V : Type} (m : List (String × V)) (k : String) (v : V)
    (h : getKey m k = some v) : (k, v) ∈ m := by
  induction m with
  | nil => simp [getKey, List.lookup] at h
  | cons p rest ih =>
      obtain ⟨k2, v2⟩ := p
      by_cases h2 : k2 = k
      · subst h2
        rw [getKey_cons, if_pos rfl] at h
        injection h with h
        rw [← h]
        exact List.mem_cons_self _ _
      · rw [getKey_cons, if_neg h2] at h
        exact List.mem_cons_of_mem _ (ih h)

/-- registerContext changes the poller set only. -/
theorem registerContextOp_eq (st : BusListenerState) (c : String) :
    MomentoEventBus.registerContextOp st c =
      { st with pollers := (MomentoEventBus.registerContextOp st c).pollers } := by
  unfold MomentoEventBus.registerContextOp
  split <;> rfl

/-- onContext appends one fresh listener, records it in the map, and bumps
the identity counter; pollers aside, nothing else changes. -/
theorem onContextStep_eq (st : BusListenerState) (c : String) :
    MomentoEventBus.onContextStep st c =
      { st with
        pollers := (MomentoEventBus.onContextStep st c).pollers
        contextListeners := setKey st.contextListeners c st.nextId
        attached := st.attached ++ [(c, st.nextId)]
        nextId := st.nextId + 1 } := by
  unfold MomentoEventBus.onContextStep MomentoEventBus.registerContextOp
  split <;> rfl

/-- An Inv state has at most one listener attached for the contextId. -/
theorem inv_attachedFor_le_one {ctx : String} {st : BusListenerState} {b : Bool}
    (h : MomentoEventBus.Inv ctx st b) :
    MomentoEventBus.attachedFor st ctx ≤ 1 := by
  obtain ⟨-, -, -, -, h5⟩ := h
  cases b with
  | false =>
      rw [if_neg (by simp)] at h5
      simp [MomentoEventBus.attachedFor, h5.1]
  | true =>
      rw [if_pos rfl] at h5
      obtain ⟨id, -, hfil⟩ := h5
      simp [MomentoEventBus.attachedFor, hfil]

/-- An Inv state with the flag down has no listener attached for the
contextId. -/
theorem inv_attachedFor_zero {ctx : String} {st : BusListenerState}
    (h : MomentoEventBus.Inv ctx st false) :
    MomentoEventBus.attachedFor st ctx = 0 := by
  obtain ⟨-, -, -, -, h5⟩ := h
  rw [if_neg (by simp)] at h5
  simp [MomentoEventBus.attachedFor, h5.1]

/-- One bus operation preserves the listener invariant, provided an
onContext for the contextId only happens with the flag down. -/
theorem inv_step (ctx : String) (st : BusListenerState) (b : Bool) (op : BusOp)
    (hInv : MomentoEventBus.Inv ctx st b)
    (hsep : op = .onContextOp ctx → b = false) :
    MomentoEventBus.Inv ctx (MomentoEventBus.stepOp st op)
      (MomentoEventBus.flagStep ctx b op) := by
  obtain ⟨h1, h2, h3, h4, h5⟩ := hInv
  cases op with
  | register c =>
      show MomentoEventBus.Inv ctx (MomentoEventBus.registerContextOp st c) b
      rw [registerContextOp_eq]
      exact ⟨h1, h2, h3, h4, h5⟩
  | onContextOp c =>
      show MomentoEventBus.Inv ctx (MomentoEventBus.onContextStep st c) _
      rw [onContextStep_eq]
      have hfresh : ∀ p ∈ st.attached, p.2 ≠ st.nextId := by
        intro p hp
        have := h2 p hp
        omega
      refine ⟨?_, ?_, ?_, ?_, ?_⟩
      · show (List.map Prod.snd (st.attached ++ [(c, st.nextId)])).Nodup
        rw [List.map_append, List.nodup_append]
        refine ⟨h1, List.nodup_singleton _, ?_⟩
        intro x hx hy
        simp only [List.map_cons, List.map_nil, List.mem_singleton] at hy
        obtain ⟨p, hp, hpx⟩ := List.mem_map.mp hx
        exact hfresh p hp (hpx.trans hy)
      · show ∀ p ∈ st.attached ++ [(c, st.nextId)], p.2 < st.nextId + 1
        intro p hp
        rcases List.mem_append.mp hp with h | h
        · have := h2 p h
          omega
        · simp only [List.mem_singleton] at h
          rw [h]
          exact Nat.lt_succ_self st.nextId
      · show ∀ p ∈ setKey st.contextListeners c st.nextId, p.2 < st.nextId + 1
        intro p hp
        rcases mem_setKey _ _ _ p hp with h | h
        · have := h3 p h
          omega
        · rw [h]
          exact Nat.lt_succ_self st.nextId
      · show ∀ p ∈ setKey st.contextListeners c st.nextId,
          ∀ q ∈ setKey st.contextListeners c st.nextId, p.2 = q.2 → p.1 = q.1
        intro p hp q hq heq
        rcases mem_setKey _ _ _ p hp with hp2 | hp2 <;>
          rcases mem_setKey _ _ _ q hq with hq2 | hq2
        · exact h4 p hp2 q hq2 heq
        · exfalso
          have := h3 p hp2
          rw [hq2] at heq
          simp only at heq
          omega
        · exfalso
          have := h3 q hq2
          rw [hp2] at heq
          simp only at heq
          omega
        · rw [hp2, hq2]
      · by_cases hc : c = ctx
        · subst hc
          have hb : b = false := hsep rfl
          subst hb
          rw [if_neg (by simp)] at h5
          rw [show MomentoEventBus.flagStep c false (.onContextOp c) = true by
            simp [MomentoEventBus.flagStep], if_pos rfl]
          refine ⟨st.nextId, getKey_setKey_self _ _ _, ?_⟩
          show (st.attached ++ [(c, st.nextId)]).filter (fun p => p.1 = c) =
            [(c, st.nextId)]
          rw [List.filter_append, h5.1]
          simp
        · rw [show MomentoEventBus.flagStep ctx b (.onContextOp c) = b by
            simp [MomentoEventBus.flagStep, hc]]
          cases b with
          | false =>
              rw [if_neg (by simp)] at h5 ⊢
              refine ⟨?_, ?_⟩
              · show (st.attached ++ [(c, st.nextId)]).filter (fun p => p.1 = ctx) = []
                rw [List.filter_append, h5.1]
                simp [hc]
              · show getKey (setKey st.contextListeners c st.nextId) ctx = none
                rw [getKey_setKey_ne _ _ _ _ (fun h => hc h.symm)]
                exact h5.2
          | true =>
              rw [if_pos rfl] at h5 ⊢
              obtain ⟨id, hid, hfil⟩ := h5
              refine ⟨id, ?_, ?_⟩
              · show getKey (setKey st.contextListeners c st.nextId) ctx = some id
                rw [getKey_setKey_ne _ _ _ _ (fun h => hc h.symm)]
                exact hid
              · show (st.attached ++ [(c, st.nextId)]).filter (fun p => p.1 = ctx) =
                  [(ctx, id)]
                rw [List.filter_append, hfil]
                simp [hc]
  | unregister c =>
      show MomentoEventBus.Inv ctx (MomentoEventBus.unregisterContextOp st c) _
      cases hk : getKey st.contextListeners c with
      | none =>
          rw [show MomentoEventBus.unregisterContextOp st c =
              { st with pollers := st.pollers.filter (fun x => x ≠ c) } by
            unfold MomentoEventBus.unregisterContextOp
            rw [hk]]
          by_cases hc : c = ctx
          · subst hc
            have hb : b = false := by
              cases b with
              | false => rfl
              | true =>
                  rw [if_pos rfl] at h5
                  obtain ⟨id, hid, -⟩ := h5
                  rw [hk] at hid
                  cases hid
            subst hb
            rw [show MomentoEventBus.flagStep c false (.unregister c) = false by
              simp [MomentoEventBus.flagStep]]
            exact ⟨h1, h2, h3, h4, h5⟩
          · rw [show MomentoEventBus.flagStep ctx b (.unregister c) = b by
              simp [MomentoEventBus.flagStep, hc]]
            exact ⟨h1, h2, h3, h4, h5⟩
      | some id2 =>
          rw [show MomentoEventBus.unregisterContextOp st c =
              { st with
                pollers := st.pollers.filter (fun x => x ≠ c)
                attached := st.attached.filter (fun p => p.2 ≠ id2)
                contextListeners := delKey st.contextListeners c } by
            unfold MomentoEventBus.unregisterContextOp
            rw [hk]]
          refine ⟨?_, ?_, ?_, ?_, ?_⟩
          · exact h1.sublist ((List.filter_sublist _).map Prod.snd)
          · intro p hp
            exact h2 p (List.mem_filter.mp hp).1
          · intro p hp
            exact h3 p (mem_delKey _ _ _ hp)
          · intro p hp q hq
            exact h4 p (mem_delKey _ _ _ hp) q (mem_delKey _ _ _ hq)
          · by_cases hc : c = ctx
            · subst hc
              rw [show MomentoEventBus.flagStep c b (.unregister c) = false by
                simp [MomentoEventBus.flagStep], if_neg (by simp)]
              cases b with
              | false =>
                  rw [if_neg (by simp)] at h5
                  refine ⟨?_, getKey_delKey_self _ _⟩
                  show (st.attached.filter (fun p => p.2 ≠ id2)).filter
                    (fun p => p.1 = c) = []
                  rw [List.filter_comm, h5.1]
                  rfl
              | true =>
                  rw [if_pos rfl] at h5
                  obtain ⟨id, hid, hfil⟩ := h5
                  have hideq : id = id2 := by
                    rw [hid] at hk
                    injection hk
                  refine ⟨?_, getKey_delKey_self _ _⟩
                  show (st.attached.filter (fun p => p.2 ≠ id2)).filter
                    (fun p => p.1 = c) = []
                  rw [List.filter_comm, hfil, hideq]
                  simp
            · rw [show MomentoEventBus.flagStep ctx b (.unregister c) = b by
                simp [MomentoEventBus.flagStep, hc]]
              cases b with
              | false =>
                  rw [if_neg (by simp)] at h5 ⊢
                  refine ⟨?_, ?_⟩
                  · show (st.attached.filter (fun p => p.2 ≠ id2)).filter
                      (fun p => p.1 = ctx) = []
                    rw [List.filter_comm, h5.1]
                    rfl
                  · show getKey (delKey st.contextListeners c) ctx = none
                    rw [getKey_delKey_ne _ _ _ (fun h => hc h.symm)]
                    exact h5.2
              | true =>
                  rw [if_pos rfl] at h5 ⊢
                  obtain ⟨id, hid, hfil⟩ := h5
                  have hne : id ≠ id2 := by
                    intro hcontra
                    have hmem1 := getKey_mem_of_eq _ _ _ hid
                    have hmem2 := getKey_mem_of_eq _ _ _ hk
                    have := h4 (ctx, id) hmem1 (c, id2) hmem2 (by simpa using hcontra)
                    exact hc (by simpa using this.symm)
                  refine ⟨id, ?_, ?_⟩
                  · show getKey (delKey st.contextListeners c) ctx = some id
                    rw [getKey_delKey_ne _ _ _ (fun h => hc h.symm)]
                    exact hid
                  · show (st.attached.filter (fun p => p.2 ≠ id2)).filter
                      (fun p => p.1 = ctx) = [(ctx, id)]
                    rw [List.filter_comm, hfil]
                    simp [hne]

/-- The separation discipline decomposes along the first operation. -/
theorem sepFor_cons (ctx : String) (op : BusOp) (rest : List BusOp) (b : Bool)
    (h : MomentoEventBus.sepFor ctx (op :: rest) b = true) :
    (op = .onContextOp ctx → b = false) ∧
      MomentoEventBus.sepFor ctx rest (MomentoEventBus.flagStep ctx b op) = true := by
  cases op with
  | register c =>
      refine ⟨(fun hop => nomatch hop), ?_⟩
      simpa [MomentoEventBus.sepFor, MomentoEventBus.flagStep] using h
  | onContextOp c =>
      by_cases hc : c = ctx
      · subst hc
        rw [show MomentoEventBus.sepFor c (.onContextOp c :: rest) b =
            (!b && MomentoEventBus.sepFor c rest true) by
          simp [MomentoEventBus.sepFor]] at h
        rw [Bool.and_eq_true] at h
        refine ⟨fun _ => (by simpa using h.1), ?_⟩
        simpa [MomentoEventBus.flagStep] using h.2
      · refine ⟨fun hop => absurd (by injection hop) hc, ?_⟩
        rw [show MomentoEventBus.sepFor ctx (.onContextOp c :: rest) b =
            MomentoEventBus.sepFor ctx rest b by
          simp [MomentoEventBus.sepFor, hc]] at h
        simpa [MomentoEventBus.flagStep, hc] using h
  | unregister c =>
      refine ⟨(fun hop => nomatch hop), ?_⟩
      simpa [MomentoEventBus.sepFor, MomentoEventBus.flagStep] using h

/-- The invariant holds along every run obeying the separation discipline,
and the bound holds at every intermediate state. -/
theorem inv_run (ctx : String) :
    ∀ (ops : List BusOp) (st : BusListenerState) (b : Bool),
      MomentoEventBus.Inv ctx st b →
      MomentoEventBus.sepFor ctx ops b = true →
      MomentoEventBus.attachedBoundedAll ctx st ops ∧
        ∃ b2, MomentoEventBus.Inv ctx (ops.foldl MomentoEventBus.stepOp st) b2 := by
  intro ops
  induction ops with
  | nil =>
      intro st b hInv _
      exact ⟨inv_attachedFor_le_one hInv, ⟨b, hInv⟩⟩
  | cons op rest ih =>
      intro st b hInv hsep
      obtain ⟨hopc, hrest⟩ := sepFor_cons ctx op rest b hsep
      have hstep := inv_step ctx st b op hInv hopc
      obtain ⟨hball, hex⟩ := ih (MomentoEventBus.stepOp st op)
        (MomentoEventBus.flagStep ctx b op) hstep hrest
      exact ⟨⟨inv_attachedFor_le_one hInv, hball⟩, hex⟩

/-- The fresh bus satisfies the invariant with the flag down. -/
theorem inv_initial (ctx : String) :
    MomentoEventBus.Inv ctx BusListenerState.initial false := by
  refine ⟨List.nodup_nil, ?_, ?_, ?_, ?_⟩
  · intro p hp; cases hp
  · intro p hp; cases hp
  · intro p hp; cases hp
  · rw [if_neg (by simp)]
    exact ⟨rfl, rfl⟩

/-- C8 (counterexample): two onContext calls for the same contextId attach
two listeners at once, and after two matching unregisterContext calls one
listener is still attached — both halves of the claim fail. -/
theorem c8_counterexample :
    MomentoEventBus.attachedFor (MomentoEventBus.runOps
      [.onContextOp "c1", .onContextOp "c1"]) "c1" = 2 ∧
    MomentoEventBus.attachedFor (MomentoEventBus.runOps
      [.onContextOp "c1", .onContextOp "c1", .unregister "c1", .unregister "c1"])
      "c1" = 1 := by
  constructor <;> rfl

/-- C8 (amended): along any interleaving of registerContext, onContext and
unregisterContext in which no second onContext for the contextId happens
before an unregisterContext for it, at most one listener for that contextId
is attached at every state; and an unregisterContext after such a run leaves
no listener for it attached.  Without that separation the property fails:
onContext overwrites the contextListeners map entry but attaches an
additional bus listener, and unregisterContext removes only the recorded
one. -/
theorem c8_listener_amended :
    ∀ (ctx : String) (ops : List BusOp),
      MomentoEventBus.sepFor ctx ops false = true →
      MomentoEventBus.attachedBoundedAll ctx BusListenerState.initial ops ∧
      MomentoEventBus.attachedFor
        (MomentoEventBus.stepOp (MomentoEventBus.runOps ops) (.unregister ctx))
        ctx = 0 := by
  intro ctx ops hsep
  obtain ⟨hball, b2, hinv⟩ :=
    inv_run ctx ops BusListenerState.initial false (inv_initial ctx) hsep
  refine ⟨hball, ?_⟩
  have hstep := inv_step ctx _ b2 (.unregister ctx) hinv (fun h => by cases h)
  rw [show MomentoEventBus.flagStep ctx b2 (.unregister ctx) = false by
    simp [MomentoEventBus.flagStep]] at hstep
  exact inv_attachedFor_zero hstep

/-- C8 (witness): the amended theorem on the separated run register,
onContext, unregister, onContext: the bound holds throughout and a final
unregister leaves no listener. -/
theorem c8_witness :
    MomentoEventBus.attachedBoundedAll "c1" BusListenerState.initial
      [.register "c1", .onContextOp "c1", .unregister "c1", .onContextOp "c1"] ∧
    MomentoEventBus.attachedFor
      (MomentoEventBus.stepOp (MomentoEventBus.runOps
        [.register "c1", .onContextOp "c1", .unregister "c1", .onContextOp "c1"])
        (.unregister "c1")) "c1" = 0 :=
  c8_listener_amended "c1"
    [.register "c1", .onContextOp "c1", .unregister "c1", .onContextOp "c1"]
    (by decide)

/-- A part after externalization never carries an inline payload; it gains a
cacheKey pointer when it had one, and is untouched when it had none. -/
theorem externalizePart_spec (tid aid : String) (uuid : Nat → String) (k : Nat)
    (p : Part) :
    MomentoTaskStore.hasInlinePayload
      (MomentoTaskStore.externalizePart tid aid uuid k p).1 = false ∧
    (MomentoTaskStore.hasInlinePayload p = true →
      (MomentoTaskStore.partCacheKey
        (MomentoTaskStore.externalizePart tid aid uuid k p).1).isSome = true) ∧
    (MomentoTaskStore.hasInlinePayload p = false →
      (MomentoTaskStore.externalizePart tid aid uuid k p).1 = p) := by
  match p with
  | .text t md =>
      exact ⟨rfl, fun h => by simp [MomentoTaskStore.hasInlinePayload] at h,
        fun _ => rfl⟩
  | .file none md =>
      exact ⟨rfl, fun h => by simp [MomentoTaskStore.hasInlinePayload] at h,
        fun _ => rfl⟩
  | .file (some f) md =>
      match hb : f.bytes with
      | none =>
          refine ⟨?_, ?_, ?_⟩ <;>
            simp [MomentoTaskStore.externalizePart, MomentoTaskStore.hasInlinePayload,
              hb, strTruthy]
      | some b =>
          by_cases hbe : b = ""
          · subst hbe
            refine ⟨?_, ?_, ?_⟩ <;>
              simp [MomentoTaskStore.externalizePart, MomentoTaskStore.hasInlinePayload,
                hb, strTruthy]
          · refine ⟨?_, ?_, ?_⟩
            · simp [MomentoTaskStore.externalizePart, hb, hbe,
                MomentoTaskStore.hasInlinePayload]
            · intro _
              simp [MomentoTaskStore.externalizePart, hb, hbe,
                MomentoTaskStore.partCacheKey, getKey_setKey_self]
            · intro hfalse
              simp [MomentoTaskStore.hasInlinePayload, hb, strTruthy, hbe] at hfalse
  | .data (some d) md =>
      refine ⟨rfl, ?_, ?_⟩
      · intro _
        simp [MomentoTaskStore.externalizePart, MomentoTaskStore.partCacheKey,
          getKey_setKey_self]
      · intro hfalse
        simp [MomentoTaskStore.hasInlinePayload] at hfalse
  | .data none md =>
      exact ⟨rfl, fun h => by simp [MomentoTaskStore.hasInlinePayload] at h,
        fun _ => rfl⟩

/-- Pointwise externalization facts over a part list. -/
theorem externalizeParts_spec (tid aid : String) (uuid : Nat → String) :
    ∀ (ps : List Part) (k : Nat),
      (MomentoTaskStore.externalizeParts tid aid uuid k ps).1.length = ps.length ∧
      (∀ (j : Nat) (p p2 : Part), ps[j]? = some p →
        (MomentoTaskStore.externalizeParts tid aid uuid k ps).1[j]? = some p2 →
        MomentoTaskStore.hasInlinePayload p2 = false ∧
        (MomentoTaskStore.hasInlinePayload p = true →
          (MomentoTaskStore.partCacheKey p2).isSome = true) ∧
        (MomentoTaskStore.hasInlinePayload p = false → p2 = p)) := by
  intro ps
  induction ps with
  | nil =>
      intro k
      exact ⟨rfl, fun j p p2 hp => by simp at hp⟩
  | cons q rest ih =>
      intro k
      constructor
      · simp only [MomentoTaskStore.externalizeParts, List.length_cons]
        rw [(ih _).1]
      · intro j p p2 hp hp2
        match j with
        | 0 =>
            simp only [List.getElem?_cons_zero, Option.some.injEq] at hp
            simp only [MomentoTaskStore.externalizeParts,
              List.getElem?_cons_zero, Option.some.injEq] at hp2
            rw [← hp, ← hp2]
            exact externalizePart_spec tid aid uuid k q
        | j + 1 =>
            simp only [List.getElem?_cons_succ] at hp
            simp only [MomentoTaskStore.externalizeParts,
              List.getElem?_cons_succ] at hp2
            exact (ih _).2 j p p2 hp hp2

/-- Pointwise externalization facts over an artifact list. -/
theorem externalizeArtifacts_spec (tid : String) (uuid : Nat → String) :
    ∀ (arts : List Artifact) (k : Nat),
      (MomentoTaskStore.externalizeArtifacts tid uuid k arts).1.length = arts.length ∧
      (∀ (i : Nat) (a a2 : Artifact), arts[i]? = some a →
        (MomentoTaskStore.externalizeArtifacts tid uuid k arts).1[i]? = some a2 →
        a2.artifactId = a.artifactId ∧
        a2.parts.length = a.parts.length ∧
        (∀ (j : Nat) (p p2 : Part), a.parts[j]? = some p → a2.parts[j]? = some p2 →
          MomentoTaskStore.hasInlinePayload p2 = false ∧
          (MomentoTaskStore.hasInlinePayload p = true →
            (MomentoTaskStore.partCacheKey p2).isSome = true) ∧
          (MomentoTaskStore.hasInlinePayload p = false → p2 = p))) := by
  intro arts
  induction arts with
  | nil =>
      intro k
      exact ⟨rfl, fun i a a2 ha => by simp at ha⟩
  | cons b rest ih =>
      intro k
      constructor
      · simp only [MomentoTaskStore.externalizeArtifacts, List.length_cons]
        rw [(ih _).1]
      · intro i a a2 ha ha2
        match i with
        | 0 =>
            simp only [List.getElem?_cons_zero, Option.some.injEq] at ha
            simp only [MomentoTaskStore.externalizeArtifacts,
              List.getElem?_cons_zero, Option.some.injEq] at ha2
            refine ⟨by rw [← ha2, ← ha], ?_, ?_⟩
            · rw [← ha2, ← ha]
              exact (externalizeParts_spec tid b.artifactId uuid b.parts k).1
            · intro j p p2 hp hp2
              rw [← ha] at hp
              rw [← ha2] at hp2
              exact (externalizeParts_spec tid b.artifactId uuid b.parts k).2
                j p p2 hp hp2
        | i + 1 =>
            simp only [List.getElem?_cons_succ] at ha
            simp only [MomentoTaskStore.externalizeArtifacts,
              List.getElem?_cons_succ] at ha2
            exact (ih _).2 i a a2 ha ha2

/-- C10: save returns the caller's task object mutated: every artifact part
that carried an inline payload — a file part with truthy bytes or a data
part with a payload — has lost it (the file or data field is gone) and
carries a cacheKey entry in its metadata instead, while every other part is
untouched. -/
theorem c10_save_mutates :
    ∀ (cache : Cache) (uuid : Nat → String) (task : Task) (arts : List Artifact),
      task.artifacts = some arts →
      ∃ arts2 : List Artifact,
        (MomentoTaskStore.save cache uuid task).2 =
          { task with artifacts := some arts2 } ∧
        arts2.length = arts.length ∧
        (∀ (i : Nat) (a a2 : Artifact), arts[i]? = some a → arts2[i]? = some a2 →
          a2.artifactId = a.artifactId ∧
          a2.parts.length = a.parts.length ∧
          (∀ (j : Nat) (p p2 : Part), a.parts[j]? = some p → a2.parts[j]? = some p2 →
            MomentoTaskStore.hasInlinePayload p2 = false ∧
            (MomentoTaskStore.hasInlinePayload p = true →
              (MomentoTaskStore.partCacheKey p2).isSome = true) ∧
            (MomentoTaskStore.hasInlinePayload p = false → p2 = p))) := by
  intro cache uuid task arts hart
  refine ⟨(MomentoTaskStore.externalizeArtifacts task.id uuid 0 arts).1, ?_, ?_, ?_⟩
  · simp [MomentoTaskStore.save, hart]
  · exact (externalizeArtifacts_spec task.id uuid arts 0).1
  · exact (externalizeArtifacts_spec task.id uuid arts 0).2

/-- C10 (witness): saving the concrete task with one inline file part
yields, per the theorem, a caller-visible task whose only part has no inline
payload and carries the derived cacheKey. -/
theorem c10_witness :
    (MomentoTaskStore.save [] exUuid c9Task).2 = { c9Task with artifacts := some [{
      artifactId := "a1"
      parts := [.file none (some [("cacheKey", MVal.str "artifact:t1:a1:u0")])] }] } ∧
    MomentoTaskStore.hasInlinePayload
      (.file none (some [("cacheKey", MVal.str "artifact:t1:a1:u0")])) = false := by
  obtain ⟨arts2, heq, hlen, hprop⟩ := c10_save_mutates [] exUuid c9Task
    [{ artifactId := "a1", parts := [.file (some { bytes := some "QQ" }) none] }] rfl
  have harts2 : arts2 = [{
      artifactId := "a1"
      parts := [.file none (some [("cacheKey", MVal.str "artifact:t1:a1:u0")])] }] := by
    have h1 : some arts2 = (MomentoTaskStore.save [] exUuid c9Task).2.artifacts := by
      rw [heq]
    have h2 : (MomentoTaskStore.save [] exUuid c9Task).2.artifacts =
        some [{
          artifactId := "a1"
          parts := [.file none (some [("cacheKey", MVal.str "artifact:t1:a1:u0")])] }] := by
      rfl
    rw [h2] at h1
    exact Option.some.inj h1
  rw [harts2] at heq
  exact ⟨heq, rfl⟩

/-- A derived blob key is never the empty string. -/
theorem derivedKey_ne_empty (t a u : String) : derivedKey t a u ≠ "" := by
  intro h
  have hlen := congrArg String.length h
  simp only [derivedKey, String.length_append] at hlen
  rw [show ("artifact:" : String).length = 9 from rfl,
    show (":" : String).length = 1 from rfl,
    show ("" : String).length = 0 from rfl] at hlen
  omega

/-- The platform base64 codec round trip: encoding the decoded bytes gives
back the original text. -/
theorem uint8_base64_round (b : String) :
    uint8ArrayToBase64 (base64ToUint8Array b) = b := by
  cases b with
  | mk data =>
      have hmap : List.map (Char.ofNat ∘ Char.toNat) data = data := by
        induction data with
        | nil => rfl
        | cons c cs ihc => simp [Function.comp, Char.ofNat_toNat, ihc]
      simp [uint8ArrayToBase64, base64ToUint8Array, List.map_map, hmap]

/-- Deleting a key just set, when the key was absent, restores the object. -/
theorem delKey_setKey_of_none {V : Type} (m : List (String × V)) (k : String)
    (v : V) (h : getKey m k = none) : delKey (setKey m k v) k = m := by
  induction m with
  | nil => simp [setKey, delKey, List.filter_cons]
  | cons p rest ih =>
      obtain ⟨k2, v2⟩ := p
      rw [getKey_cons] at h
      by_cases h2 : k2 = k
      · rw [if_pos h2] at h
        exact nomatch h
      · rw [if_neg h2] at h
        rw [show setKey ((k2, v2) :: rest) k v = (k2, v2) :: setKey rest k v from by
            simp [setKey, h2],
          show delKey ((k2, v2) :: setKey rest k v) k =
            (k2, v2) :: delKey (setKey rest k v) k from by
            simp [delKey, List.filter_cons, h2],
          ih h]

/-- getKey distributes over append: the left object wins. -/
theorem getKey_append {V : Type} (l1 l2 : List (String × V)) (k : String) :
    getKey (l1 ++ l2) k =
      match getKey l1 k with
      | some v => some v
      | none => getKey l2 k := by
  induction l1 with
  | nil => rfl
  | cons p rest ih =>
      obtain ⟨k2, v2⟩ := p
      rw [List.cons_append, getKey_cons, getKey_cons]
      by_cases h : k2 = k
      · simp [h]
      · simp [h, ih]

/-- In an object with pairwise distinct keys, getKey finds any member
binding. -/
theorem getKey_of_mem_nodup {V : Type} :
    ∀ (es : List (String × V)) (k : String) (v : V),
      (es.map Prod.fst).Nodup → (k, v) ∈ es → getKey es k = some v := by
  intro es
  induction es with
  | nil => intro k v _ hm; cases hm
  | cons p rest ih =>
      intro k v hnd hm
      obtain ⟨k2, v2⟩ := p
      rw [getKey_cons]
      rcases List.mem_cons.mp hm with h | h
      · injection h with h1 h2
        subst h1
        subst h2
        rw [if_pos rfl]
      · have hk2 : ¬ k2 = k := by
          intro hcontra
          subst hcontra
          have hmem : k2 ∈ rest.map Prod.fst := List.mem_map.mpr ⟨(k2, v), h, rfl⟩
          exact (List.nodup_cons.mp hnd).1 hmem
        rw [if_neg hk2]
        exact ih k v (List.nodup_cons.mp hnd).2 h

/-- Folding cacheSet over a list of entries prepends them in reverse. -/
theorem foldl_cacheSet_eq :
    ∀ (es : List (String × CVal)) (c0 : Cache),
      es.foldl (fun c e => cacheSet c e.1 e.2) c0 = es.reverse ++ c0 := by
  intro es
  induction es with
  | nil => intro c0; rfl
  | cons e rest ih =>
      intro c0
      rw [List.foldl_cons, ih, List.reverse_cons, List.append_assoc]
      rfl

/-- A cacheSet entry is immediately readable. -/
theorem cacheGet_cacheSet_self (c : Cache) (k : String) (v : CVal) :
    cacheGet (cacheSet c k v) k = some v := by
  show getKey ((k, v) :: c) k = some v
  rw [getKey_cons, if_pos rfl]

/-- After save writes the blob entries and the task record, every blob entry
with a key distinct from the task id is found in the cache. -/
theorem cacheGet_final (cache0 : Cache) (tid : String) (tv : CVal)
    (es : List (String × CVal)) (hnd : (es.map Prod.fst).Nodup)
    (ck : String) (v : CVal) (hm : (ck, v) ∈ es) (hne : ck ≠ tid) :
    cacheGet (cacheSet (es.foldl (fun c e => cacheSet c e.1 e.2) cache0) tid tv)
      ck = some v := by
  rw [foldl_cacheSet_eq]
  show getKey ((tid, tv) :: (es.reverse ++ cache0)) ck = some v
  rw [getKey_cons, if_neg (fun h => hne h.symm), getKey_append]
  rw [getKey_of_mem_nodup es.reverse ck v
    (by rw [List.map_reverse]; exact List.nodup_reverse.mpr hnd)
    (List.mem_reverse.mpr hm)]

/-- Rehydrating an externalized part, with every blob entry it wrote visible
in the cache, yields the round-trip image of the original part. -/
theorem rehydrate_externalizePart (tid aid : String) (uuid : Nat → String)
    (k : Nat) (C : Cache) (p : Part)
    (hwf : MomentoTaskStore.partCacheKey p = none)
    (hC : ∀ e ∈ (MomentoTaskStore.externalizePart tid aid uuid k p).2.1,
      cacheGet C e.1 = some e.2) :
    MomentoTaskStore.rehydratePart C
      (MomentoTaskStore.externalizePart tid aid uuid k p).1 =
    MomentoTaskStore.normalizeSavedPart p := by
  match p with
  | .text t md => rfl
  | .file none md =>
      match md with
      | none => rfl
      | some m =>
          have hget : getKey m "cacheKey" = none := by
            simpa [MomentoTaskStore.partCacheKey] using hwf
          simp [MomentoTaskStore.externalizePart, MomentoTaskStore.rehydratePart,
            hget, MomentoTaskStore.normalizeSavedPart]
  | .file (some f) md =>
      have hwfm : getKey (md.getD []) "cacheKey" = none := by
        simpa [MomentoTaskStore.partCacheKey] using hwf
      match hb : f.bytes with
      | none =>
          have hsp : (MomentoTaskStore.externalizePart tid aid uuid k
              (.file (some f) md)).1 = .file (some f) md := by
            simp [MomentoTaskStore.externalizePart, hb]
          rw [hsp]
          match md with
          | none =>
              simp [MomentoTaskStore.rehydratePart,
                MomentoTaskStore.normalizeSavedPart, hb, strTruthy]
          | some m =>
              have hget : getKey m "cacheKey" = none := by simpa using hwfm
              simp [MomentoTaskStore.rehydratePart, hget,
                MomentoTaskStore.normalizeSavedPart, hb, strTruthy]
      | some b =>
          by_cases hbe : b = ""
          · subst hbe
            have hsp : (MomentoTaskStore.externalizePart tid aid uuid k
                (.file (some f) md)).1 = .file (some f) md := by
              simp [MomentoTaskStore.externalizePart, hb]
            rw [hsp]
            match md with
            | none =>
                simp [MomentoTaskStore.rehydratePart,
                  MomentoTaskStore.normalizeSavedPart, hb, strTruthy]
            | some m =>
                have hget : getKey m "cacheKey" = none := by simpa using hwfm
                simp [MomentoTaskStore.rehydratePart, hget,
                  MomentoTaskStore.normalizeSavedPart, hb, strTruthy]
          · obtain ⟨fb⟩ := f
            simp only at hb
            subst hb
            have hsp : (MomentoTaskStore.externalizePart tid aid uuid k
                (.file (some ⟨some b⟩) md)) =
              (.file none (some (setKey (md.getD []) "cacheKey"
                  (.str (derivedKey tid aid (uuid k))))),
                [(derivedKey tid aid (uuid k),
                  .bytes (base64ToUint8Array b))], k + 1) := by
              simp [MomentoTaskStore.externalizePart, hbe]
            have hck : cacheGet C (derivedKey tid aid (uuid k)) =
                some (.bytes (base64ToUint8Array b)) := by
              have := hC (derivedKey tid aid (uuid k),
                .bytes (base64ToUint8Array b))
              rw [hsp] at this
              exact this (by simp)
            rw [hsp]
            show MomentoTaskStore.rehydratePart C
              (.file none (some (setKey (md.getD []) "cacheKey"
                (.str (derivedKey tid aid (uuid k)))))) = _
            simp only [MomentoTaskStore.rehydratePart, getKey_setKey_self,
              derivedKey_ne_empty tid aid (uuid k), ne_eq,
              not_false_eq_true, if_true, hck, uint8_base64_round,
              delKey_setKey_of_none _ _ _ hwfm,
              MomentoTaskStore.normalizeSavedPart, strTruthy, hbe]
            rw [if_pos (by decide)]
  | .data (some d) md =>
      have hwfm : getKey (md.getD []) "cacheKey" = none := by
        simpa [MomentoTaskStore.partCacheKey] using hwf
      have hsp : (MomentoTaskStore.externalizePart tid aid uuid k
          (.data (some d) md)) =
        (.data none (some (setKey (md.getD []) "cacheKey"
            (.str (derivedKey tid aid (uuid k))))),
          [(derivedKey tid aid (uuid k), .jsonData d)], k + 1) := by
        simp [MomentoTaskStore.externalizePart]
      have hck : cacheGet C (derivedKey tid aid (uuid k)) =
          some (.jsonData d) := by
        have := hC (derivedKey tid aid (uuid k), .jsonData d)
        rw [hsp] at this
        exact this (by simp)
      rw [hsp]
      show MomentoTaskStore.rehydratePart C
        (.data none (some (setKey (md.getD []) "cacheKey"
          (.str (derivedKey tid aid (uuid k)))))) = _
      simp only [MomentoTaskStore.rehydratePart, getKey_setKey_self,
        derivedKey_ne_empty tid aid (uuid k), ne_eq, not_false_eq_true,
        if_true, hck, delKey_setKey_of_none _ _ _ hwfm,
        MomentoTaskStore.normalizeSavedPart]
  | .data none md =>
      match md with
      | none => rfl
      | some m =>
          have hget : getKey m "cacheKey" = none := by
            simpa [MomentoTaskStore.partCacheKey] using hwf
          simp [MomentoTaskStore.externalizePart, MomentoTaskStore.rehydratePart,
            hget, MomentoTaskStore.normalizeSavedPart]

/-- Rehydration after externalization over a part list. -/
theorem rehydrate_externalizeParts (tid aid : String) (uuid : Nat → String)
    (C : Cache) :
    ∀ (ps : List Part) (k : Nat),
      (∀ p ∈ ps, MomentoTaskStore.partCacheKey p = none) →
      (∀ e ∈ (MomentoTaskStore.externalizeParts tid aid uuid k ps).2.1,
        cacheGet C e.1 = some e.2) →
      (MomentoTaskStore.externalizeParts tid aid uuid k ps).1.map
        (MomentoTaskStore.rehydratePart C) =
      ps.map MomentoTaskStore.normalizeSavedPart := by
  intro ps
  induction ps with
  | nil => intro k _ _; rfl
  | cons q rest ih =>
      intro k hwf hC
      have hhead : (MomentoTaskStore.externalizeParts tid aid uuid k (q :: rest)).1 =
          (MomentoTaskStore.externalizePart tid aid uuid k q).1 ::
            (MomentoTaskStore.externalizeParts tid aid uuid
              (MomentoTaskStore.externalizePart tid aid uuid k q).2.2 rest).1 := rfl
      have hentries : (MomentoTaskStore.externalizeParts tid aid uuid k (q :: rest)).2.1 =
          (MomentoTaskStore.externalizePart tid aid uuid k q).2.1 ++
            (MomentoTaskStore.externalizeParts tid aid uuid
              (MomentoTaskStore.externalizePart tid aid uuid k q).2.2 rest).2.1 := rfl
      rw [hhead, List.map_cons, List.map_cons]
      congr 1
      · exact rehydrate_externalizePart tid aid uuid k C q
          (hwf q (List.mem_cons_self _ _))
          (fun e he => hC e (by rw [hentries]; exact List.mem_append_left _ he))
      · exact ih _ (fun p hp => hwf p (List.mem_cons_of_mem _ hp))
          (fun e he => hC e (by rw [hentries]; exact List.mem_append_right _ he))

/-- Rehydration after externalization over an artifact list. -/
theorem rehydrate_externalizeArtifacts (tid : String) (uuid : Nat → String)
    (C : Cache) :
    ∀ (arts : List Artifact) (k : Nat),
      (∀ a ∈ arts, ∀ p ∈ a.parts, MomentoTaskStore.partCacheKey p = none) →
      (∀ e ∈ (MomentoTaskStore.externalizeArtifacts tid uuid k arts).2.1,
        cacheGet C e.1 = some e.2) →
      (MomentoTaskStore.externalizeArtifacts tid uuid k arts).1.map
        (fun a => { a with parts := a.parts.map (MomentoTaskStore.rehydratePart C) }) =
      arts.map
        (fun a => { a with parts := a.parts.map MomentoTaskStore.normalizeSavedPart }) := by
  intro arts
  induction arts with
  | nil => intro k _ _; rfl
  | cons b rest ih =>
      intro k hwf hC
      have hhead : (MomentoTaskStore.externalizeArtifacts tid uuid k (b :: rest)).1 =
          { b with parts := (MomentoTaskStore.externalizeParts tid b.artifactId
              uuid k b.parts).1 } ::
            (MomentoTaskStore.externalizeArtifacts tid uuid
              (MomentoTaskStore.externalizeParts tid b.artifactId uuid k
                b.parts).2.2 rest).1 := rfl
      have hentries : (MomentoTaskStore.externalizeArtifacts tid uuid k (b :: rest)).2.1 =
          (MomentoTaskStore.externalizeParts tid b.artifactId uuid k b.parts).2.1 ++
            (MomentoTaskStore.externalizeArtifacts tid uuid
              (MomentoTaskStore.externalizeParts tid b.artifactId uuid k
                b.parts).2.2 rest).2.1 := rfl
      rw [hhead, List.map_cons, List.map_cons]
      congr 1
      · show ({ b with parts := (MomentoTaskStore.externalizeParts tid b.artifactId
            uuid k b.parts).1.map (MomentoTaskStore.rehydratePart C) } : Artifact) =
          { b with parts := b.parts.map MomentoTaskStore.normalizeSavedPart }
        rw [rehydrate_externalizeParts tid b.artifactId uuid C b.parts k
          (hwf b (List.mem_cons_self _ _))
          (fun e he => hC e (by rw [hentries]; exact List.mem_append_left _ he))]
      · exact ih _ (fun a ha => hwf a (List.mem_cons_of_mem _ ha))
          (fun e he => hC e (by rw [hentries]; exact List.mem_append_right _ he))

/-- C9 (counterexample): saving and loading a task with one file artifact
part whose metadata was absent does not return the original task: the
rehydrated part surfaces an empty metadata object where the original had
none, so the round trip is not the identity the claim states. -/
theorem c9_counterexample :
    MomentoTaskStore.load (MomentoTaskStore.save [] exUuid c9Task).1 "t1" ≠
      some c9Task ∧
    MomentoTaskStore.load (MomentoTaskStore.save [] exUuid c9Task).1 "t1" =
      some { c9Task with artifacts := some [{
        artifactId := "a1"
        parts := [.file (some { bytes := some "QQ" }) (some [])] }] } := by
  constructor
  · decide
  · rfl

/-- C9 (amended): save followed by load returns the stored task with every
externalized part rehydrated — file bytes and data payloads restored from
their derived artifact:taskId:artifactId:uuid keys and the cacheKey entry
removed from the surfaced metadata — provided no part already carried a
cacheKey entry and the derived keys are fresh (pairwise distinct and
distinct from the task id); the result equals the original task except that
an externalized part whose metadata was absent surfaces an empty metadata
object.  A task without an artifact array round-trips unchanged. -/
theorem c9_round_trip_amended :
    ∀ (cache : Cache) (uuid : Nat → String) (task : Task) (arts : List Artifact),
      (task.artifacts = none →
        MomentoTaskStore.load (MomentoTaskStore.save cache uuid task).1 task.id =
          some task) ∧
      (task.artifacts = some arts →
        (∀ a ∈ arts, ∀ p ∈ a.parts, MomentoTaskStore.partCacheKey p = none) →
        ((MomentoTaskStore.externalizeArtifacts task.id uuid 0 arts).2.1.map
          Prod.fst).Nodup →
        task.id ∉ (MomentoTaskStore.externalizeArtifacts task.id uuid 0 arts).2.1.map
          Prod.fst →
        MomentoTaskStore.load (MomentoTaskStore.save cache uuid task).1 task.id =
          some (MomentoTaskStore.roundTripImage task)) := by
  intro cache uuid task arts
  constructor
  · intro hart
    simp [MomentoTaskStore.save, MomentoTaskStore.load, hart, cacheGet, cacheSet,
      getKey_cons]
  · intro hart hwf hnd hid
    have hsave : MomentoTaskStore.save cache uuid task =
        (cacheSet ((MomentoTaskStore.externalizeArtifacts task.id uuid 0 arts).2.1.foldl (fun c e => cacheSet c e.1 e.2) cache) task.id (.jsonTask { task with artifacts := some (MomentoTaskStore.externalizeArtifacts task.id uuid 0 arts).1 }),
         { task with artifacts := some (MomentoTaskStore.externalizeArtifacts task.id uuid 0 arts).1 }) := by
      simp [MomentoTaskStore.save, hart]
    have hC : ∀ e ∈ (MomentoTaskStore.externalizeArtifacts task.id uuid 0 arts).2.1,
        cacheGet (MomentoTaskStore.save cache uuid task).1 e.1 = some e.2 := by
      intro e he
      rw [hsave]
      obtain ⟨ck, v⟩ := e
      refine cacheGet_final cache task.id _ _ hnd ck v he ?_
      intro hcontra
      subst hcontra
      exact hid (List.mem_map.mpr ⟨(task.id, v), he, rfl⟩)
    have hget : cacheGet (MomentoTaskStore.save cache uuid task).1 task.id =
        some (.jsonTask { task with artifacts := some (MomentoTaskStore.externalizeArtifacts task.id uuid 0 arts).1 }) := by
      rw [hsave]
      exact cacheGet_cacheSet_self _ _ _
    simp only [MomentoTaskStore.load, hget]
    rw [rehydrate_externalizeArtifacts task.id uuid
      (MomentoTaskStore.save cache uuid task).1 arts 0 hwf hC]
    simp [MomentoTaskStore.roundTripImage, hart]

/-- C9 (witness): the amended round-trip theorem at the concrete one-file
task: load of save returns its round-trip image. -/
theorem c9_witness :
    MomentoTaskStore.load (MomentoTaskStore.save [] exUuid c9Task).1 "t1" =
      some (MomentoTaskStore.roundTripImage c9Task) :=
  (c9_round_trip_amended [] exUuid c9Task
    [{ artifactId := "a1", parts := [.file (some { bytes := some "QQ" }) none] }]).2
    rfl (by decide) (by decide) (by decide)

/-- C3 (witness): the amended theorem at a concrete in-memory state: the
append event merges parts, name and metadata onto the held artifact. -/
theorem c3_witness :
    (ResultManager.processEvent
        { currentTask := some c3TaskHeldInStore, latestUserMessage := none
          finalMessageResult := none }
        [] (.artifactUpdate c3Ev2)).1.currentTask =
      some { c3TaskHeldInStore with artifacts := some [{
        artifactId := "a1"
        parts := [.text "a" none, .text "b" none]
        name := some "file2"
        metadata := some [("foo", MVal.num 1), ("bar", MVal.num 2)] }] } := by
  have h := ((c3_artifact_append_amended.1
      { currentTask := some c3TaskHeldInStore, latestUserMessage := none
        finalMessageResult := none }
      [] c3TaskHeldInStore
      [{ artifactId := "a1", parts := [.text "a" none]
         name := some "file1", metadata := some [("foo", MVal.num 1)] }]
      0
      { artifactId := "a1", parts := [.text "a" none]
        name := some "file1", metadata := some [("foo", MVal.num 1)] }
      c3Ev2 (by decide) (by decide) (by decide)).1 rfl (by decide) rfl)
  rw [h]
  rfl

end A2A
